import Mathlib

/-
Verification of the iLO hardware-inspection workflow
(ironic/drivers/modules/ilo/inspect.py).

The embedding models Python strings as lists of characters, Python
dictionaries as association lists with in-place replacement on key
collision (Python dict assignment semantics), and the duck-typed
payloads returned by the management controller as a `PyVal` variant
type.  Raised exceptions are modelled with `Except`.
-/

set_option autoImplicit false

namespace IloInspect

/-- Python strings are modelled as lists of characters, so that the
splitting and joining done by the capability merger and the port
selection policy can be reasoned about by structural induction. -/
abbrev Str := List Char

/-- Python `s.split(c)` for a one-character separator:
`''.split(',') = ['']`, and a trailing separator yields a final
empty piece, exactly as in Python. -/
def splitOnChar (c : Char) : Str → List Str
  | [] => [[]]
  | x :: rest =>
    if x = c then [] :: splitOnChar c rest
    else
      match splitOnChar c rest with
      | t :: ts => (x :: t) :: ts
      | [] => [[x]]

/-- Python `s.split(c, 1)` restricted to the success shape: returns the
part before the first occurrence of `c` and the part after it, or
`none` when `c` does not occur (in which case Python returns a
one-element list, which makes the `dict()` constructor in the
capability parser raise `ValueError`). -/
def splitFirst (c : Char) : Str → Option (Str × Str)
  | [] => none
  | x :: rest =>
    if x = c then some ([], rest)
    else (splitFirst c rest).map (fun p => (x :: p.1, p.2))

/-- Python `sep.join(parts)` for the pieces of a capability string. -/
def joinChar (c : Char) (parts : List Str) : Str :=
  List.intercalate [c] parts

/-- Python `s.lower()`; the workflow only compares against the ASCII
words `all` and `none`. -/
def lower (s : Str) : Str := s.map Char.toLower

/-- Python `s.isdigit()` (restricted to ASCII digits, which is all the
port-selection expressions contain). -/
def isDigitToken (s : Str) : Bool :=
  !s.isEmpty && s.all Char.isDigit

/-- Lookup in a Python dictionary, modelled on its association list of
entries.  Dictionaries built by the workflow never carry duplicate
keys, so first-match lookup is the map semantics. -/
def dictGet {α : Type} : List (Str × α) → Str → Option α
  | [], _ => none
  | (k, v) :: rest, key => if k = key then some v else dictGet rest key

/-- Python `d[k] = v`: replaces the value in place when the key is
present, otherwise appends the new entry. -/
def dictInsert {α : Type} : List (Str × α) → Str → α → List (Str × α)
  | [], k, v => [(k, v)]
  | (k', v') :: rest, k, v =>
    if k' = k then (k, v) :: rest else (k', v') :: dictInsert rest k v

/-- Python `d.update(other)`: assign every entry of `other` in order. -/
def dictUpdate {α : Type} (d other : List (Str × α)) : List (Str × α) :=
  other.foldl (fun acc kv => dictInsert acc kv.1 kv.2) d

/-- Python `dict(pairs)`: build a dictionary from a sequence of pairs,
later occurrences of a key overwriting earlier ones. -/
def dictOfPairs {α : Type} (pairs : List (Str × α)) : List (Str × α) :=
  dictUpdate [] pairs

/-- The keys of a dictionary, in entry order. -/
def dictKeys {α : Type} (d : List (Str × α)) : List Str :=
  d.map Prod.fst

/-- Last-match lookup in a raw pair list; describes what a sequence of
Python dict assignments leaves behind for a given key. -/
def lastGet {α : Type} : List (Str × α) → Str → Option α
  | [], _ => none
  | (k', v) :: rest, k =>
    match lastGet rest k with
    | some v' => some v'
    | none => if k' = k then some v else none

/-- Duck-typed Python values as they appear in controller payloads. -/
inductive PyVal where
  | none
  | int (n : Int)
  | str (s : Str)
  | list (xs : List PyVal)
  | dict (d : List (Str × PyVal))

/-- Python truthiness for the values the workflow branches on:
`None`, `0`, the empty string, the empty list and the empty dict are
falsy, everything else truthy. -/
def pyTruthy : PyVal → Bool
  | .none => false
  | .int n => n != 0
  | .str s => !s.isEmpty
  | .list xs => !xs.isEmpty
  | .dict d => !d.isEmpty

mutual

/-- Python `repr` for the container cases of `str()`; element strings
are quoted as Python does when rendering containers. -/
def pyRepr : PyVal → Str
  | .none => "None".data
  | .int n => (toString n).data
  | .str s => '\x27' :: s ++ ['\x27']
  | .list xs => '[' :: ", ".data.intercalate (pyReprList xs) ++ [']']
  | .dict d => '\x7b' :: ", ".data.intercalate (pyReprEntries d) ++ ['\x7d']

/-- Renderings of the elements of a Python list, for `pyRepr`. -/
def pyReprList : List PyVal → List Str
  | [] => []
  | x :: xs => pyRepr x :: pyReprList xs

/-- Renderings of the entries of a Python dict, for `pyRepr`. -/
def pyReprEntries : List (Str × PyVal) → List Str
  | [] => []
  | (k, v) :: rest =>
    ('\x27' :: k ++ '\x27' :: ':' :: ' ' :: pyRepr v) :: pyReprEntries rest

end

/-- Python `str(v)` as used by `'%s' % v` when serializing capability
values: a string renders as itself, other values via `repr`-style
rendering. -/
def pyStr : PyVal → Str
  | .str s => s
  | v => pyRepr v

/-! ## The source data model

`ESSENTIAL_PROPERTIES_KEYS` and `CAPABILITIES_KEYS` are Python sets in
the source; they are modelled as lists in the order of the source
literals (set iteration order is unspecified in Python, and no claim
depends on it). -/

/-- ESSENTIAL_PROPERTIES_KEYS = {memory_mb, local_gb, cpus, cpu_arch}. -/
def essentialPropertiesKeys : List Str :=
  ["memory_mb".data, "local_gb".data, "cpus".data, "cpu_arch".data]

/-- CAPABILITIES_KEYS: the allow-list of recognized capability names. -/
def capabilitiesKeys : List Str :=
  ["BootMode".data, "secure_boot".data, "rom_firmware_version".data,
   "ilo_firmware_version".data, "server_model".data, "max_raid_level".data,
   "pci_gpu_devices".data, "sr_iov_devices".data, "nic_capacity".data]

/-- The interpolated data of each error message raised by the module;
each constructor corresponds to one format string of the source
(quoted in the theorems that use it). -/
inductive IMsg where
  | serverMissingKeys (keys : List Str)
  | propertiesNotDict (properties : PyVal) (uuid : Str)
  | propertiesNotReturned (uuid : Str)
  | macsNotDict (macs : PyVal) (uuid : Str)
  | macsNotReturned (uuid : Str)
  | invalidCapabilitiesString (uuid : Str) (capabilities : Str)
  | capabilitiesNotDict (uuid : Str) (capabilities : PyVal)
  | portsNotFound (ports : List Str) (uuid : Str)
  | missingInspectPorts
  | invalidInspectPorts (value : Str) (uuid : Str)
  | inspectingHardware (uuid : Str)

/-- Uncaught Python-level exceptions (duck typing gone wrong). -/
inductive PyErr where
  | typeError
  | attributeError
  | keyError
deriving DecidableEq

/-- The exceptions the module raises or lets propagate. -/
inductive IErr where
  | hardwareInspectionFailure (msg : IMsg)
  | invalidParameterValue (msg : IMsg)
  | missingParameterValue (msg : IMsg)
  | iloOperationError (operation : IMsg) (error : Str)
  | pyError (e : PyErr)
  | dbError (e : Str)

/-- Error outcomes of `dbapi.create_port`: the store either reports a
duplicate MAC (`MACAlreadyExists`) or some other failure. -/
inductive StoreErr where
  | macAlreadyExists
  | dbFailure (e : Str)
deriving DecidableEq

/-- Power states read from the power interface. -/
inductive PowerState where
  | powerOn
  | powerOff
  | powerUnknown
deriving DecidableEq

/-- Terminal workflow states; inspection ends in `MANAGEABLE`. -/
inductive FinalState where
  | manageable
deriving DecidableEq

/-- The node record: identifier, properties mapping (which may hold
the serialized capabilities string) and driver configuration. -/
structure Node where
  uuid : Str
  nodeId : Int
  properties : List (Str × PyVal)
  driver_info : List (Str × Str)

/-- Observable events of one inspection run, in order: the capability
query being issued, each persistence of the node record (with the
properties it persists), and each successful port creation. -/
inductive Event where
  | capabilityQuery
  | save (properties : List (Str × PyVal))
  | portCreated (mac : PyVal) (nodeId : Int)

/-- Outcomes of the external collaborators for one inspection attempt:
the result of `get_power_state`, of `get_essential_properties`, of
`get_server_capabilities` (errors carry the underlying message text),
and of `create_port` for each MAC. -/
structure Env where
  powerState : Except Str PowerState
  essentialProperties : Except Str (List (Str × PyVal))
  serverCapabilities : Except Str PyVal
  createPort : PyVal → Except StoreErr Unit

/-! ## The module functions -/

/-- The per-MAC creation loop of `_create_ports_if_not_exist`, over the
values of the selected MAC dictionary: `MACAlreadyExists` is caught
(logged as a warning) and the loop continues; any other store failure
propagates.  Returns the port-creation events of the successful
iterations. -/
def createPortsLoop (createPort : PyVal → Except StoreErr Unit)
    (nodeId : Int) : List PyVal → Except IErr Unit × List Event
  | [] => (.ok (), [])
  | v :: rest =>
    match createPort v with
    | .ok () =>
      let r := createPortsLoop createPort nodeId rest
      (r.1, .portCreated v nodeId :: r.2)
    | .error .macAlreadyExists => createPortsLoop createPort nodeId rest
    | .error (.dbFailure e) => (.error (.dbError e), [])

/-- `_create_ports_if_not_exist(node, macs)`: iterate over
`macs.values()` and create a port for each MAC. -/
def createPortsIfNotExist (createPort : PyVal → Except StoreErr Unit)
    (node : Node) (macs : List (Str × PyVal)) : Except IErr Unit × List Event :=
  createPortsLoop createPort node.nodeId (macs.map Prod.snd)

/-- The `properties` check of `_validate(node, data)`:
`if data.get('properties'):` (truthiness, so an empty dict takes the
else branch), then `isinstance(..., dict)`, then
`missing_keys = ESSENTIAL_PROPERTIES_KEYS - set(data['properties'])`,
raising `HardwareInspectionFailure` with the message
`"Server didn't return the key(s): %(key)s"` when keys are missing,
`"Essential properties are expected to be in dictionary format..."`
for a non-dict truthy value, and
`"The node %s didn't return 'properties' as the key with inspection."`
for an absent or falsy value. -/
def validateProperties (node : Node) (data : List (Str × PyVal)) :
    Except IErr Unit :=
  match dictGet data "properties".data with
  | some v =>
    if pyTruthy v then
      match v with
      | .dict props =>
        let missing := essentialPropertiesKeys.filter
          (fun k => (dictGet props k).isNone)
        if missing.isEmpty then .ok ()
        else .error (.hardwareInspectionFailure (.serverMissingKeys missing))
      | _ => .error (.hardwareInspectionFailure (.propertiesNotDict v node.uuid))
    else .error (.hardwareInspectionFailure (.propertiesNotReturned node.uuid))
  | none => .error (.hardwareInspectionFailure (.propertiesNotReturned node.uuid))

/-- The `macs` check of `_validate(node, data)`:
`if data.get('macs'):` then `isinstance(..., dict)`, raising
`"Node %(node)s didn't return MACs %(macs)s in dictionary format."`
for a truthy non-dict and
`"The node %s didn't return 'macs' as the key with inspection."`
for an absent or falsy value. -/
def validateMacs (node : Node) (data : List (Str × PyVal)) :
    Except IErr Unit :=
  match dictGet data "macs".data with
  | some v =>
    if pyTruthy v then
      match v with
      | .dict _ => .ok ()
      | _ => .error (.hardwareInspectionFailure (.macsNotDict v node.uuid))
    else .error (.hardwareInspectionFailure (.macsNotReturned node.uuid))
  | none => .error (.hardwareInspectionFailure (.macsNotReturned node.uuid))

/-- `_validate(node, data)`: the `properties` check runs first, the
`macs` check second; the first failure raises. -/
def validate (node : Node) (data : List (Str × PyVal)) : Except IErr Unit := do
  validateProperties node data
  validateMacs node data

/-- `_get_essential_properties(node, ilo_object)`: an `IloError` from
the controller is wrapped as `HardwareInspectionFailure`; the result is
validated before being returned. -/
def getEssentialProperties (env : Env) (node : Node) :
    Except IErr (List (Str × PyVal)) := do
  match env.essentialProperties with
  | .error e => throw (.hardwareInspectionFailure (.inspectingHardware e))
  | .ok result => do
    validate node result
    pure result

/-- `_create_supported_capabilities_dict(capabilities)`:
`CAPABILITIES_KEYS.intersection(capabilities)` iterated with
`capabilities.get(key)`.  On a dict this filters to the allow-listed
keys.  On a string, `intersection` iterates the characters, none of
which equals a multi-character capability name, so the result is the
empty dict (if a character did match, the subsequent `.get` on a string
would raise `AttributeError`).  On an int or `None`, `intersection`
raises `TypeError` (not iterable); on a list, an unhashable element
raises `TypeError` and a matching string element leads to `.get` on a
list, an `AttributeError`. -/
def createSupportedCapabilitiesDict : PyVal → Except IErr (List (Str × PyVal))
  | .dict d =>
    .ok (capabilitiesKeys.filterMap (fun k => (dictGet d k).map (fun v => (k, v))))
  | .str s =>
    if capabilitiesKeys.any (fun k => s.any (fun c => [c] = k)) then
      .error (.pyError .attributeError)
    else .ok []
  | .list xs =>
    if xs.any (fun e => match e with | .dict _ => true | .list _ => true | _ => false) then
      .error (.pyError .typeError)
    else if xs.any (fun e => match e with
        | .str s => capabilitiesKeys.contains s
        | _ => false) then
      .error (.pyError .attributeError)
    else .ok []
  | .int _ => .error (.pyError .typeError)
  | .none => .error (.pyError .typeError)

/-- The parse of an existing capabilities string in
`_update_capabilities`:
`dict(x.split(':', 1) for x in node_capabilities.split(','))`.
Returns `none` exactly when some comma-separated token has no colon,
which makes the `dict()` constructor raise `ValueError`. -/
def parseCapabilities (s : Str) : Option (List (Str × Str)) :=
  ((splitOnChar ',' s).mapM (splitFirst ':')).map dictOfPairs

/-- The serialization of `_update_capabilities`:
`','.join(['%(key)s:%(value)s' ...])` over the merged dict. -/
def serializeCapabilities (d : List (Str × PyVal)) : Str :=
  joinChar ',' (d.map (fun kv => kv.1 ++ ':' :: pyStr kv.2))

/-- `_update_capabilities(node, new_capabilities)` with the
`node.properties.get('capabilities')` lookup already performed: parse
the existing string (raising `InvalidParameterValue` with message
`"Node %(node)s has invalid capabilities string %(capabilities)..."`
when malformed), then require `new_capabilities` to be a dict (else
`HardwareInspectionFailure` with message `"The expected format of
capabilities from inspection is dictionary..."`), overlay it, and
re-serialize.  A truthy non-string stored value would fail the
`.split` attribute lookup. -/
def updateCapabilitiesCore (nodeUuid : Str) (nodeCapabilities : Option PyVal)
    (newCapabilities : PyVal) : Except IErr Str := do
  let capDict : List (Str × PyVal) ←
    match nodeCapabilities with
    | some v =>
      if pyTruthy v then
        match v with
        | .str s =>
          match parseCapabilities s with
          | some d => pure (d.map (fun kv => (kv.1, PyVal.str kv.2)))
          | none =>
            throw (.invalidParameterValue (.invalidCapabilitiesString nodeUuid s))
        | _ => throw (.pyError .attributeError)
      else pure []
    | none => pure []
  match newCapabilities with
  | .dict nd => pure (serializeCapabilities (dictUpdate capDict nd))
  | _ =>
    throw (.hardwareInspectionFailure (.capabilitiesNotDict nodeUuid newCapabilities))

/-- `_update_capabilities(node, new_capabilities)`. -/
def updateCapabilities (node : Node) (newCapabilities : PyVal) :
    Except IErr Str :=
  updateCapabilitiesCore node.uuid (dictGet node.properties "capabilities".data)
    newCapabilities

/-- The truthiness test applied to `macs.get(port_number)` in the port
selection loop: absent keys and falsy values (such as an empty string)
both take the `non_existing_ports` branch. -/
def truthyGet (macs : List (Str × PyVal)) (k : Str) : Bool :=
  match dictGet macs k with
  | some v => pyTruthy v
  | none => false

/-- The label `'Port %s' % port_number` built for each token of the
selection expression. -/
def portLabel (n : Str) : Str := "Port ".data ++ n

/-- `_get_macs_for_desired_ports(node, macs)` with the
`driver_info.get('inspect_ports')` string already extracted: `'all'`
(case-insensitive) returns the whole mapping; otherwise each
comma-separated token is turned into a `'Port n'` label, looked up
with a truthiness test, found MACs collected into a dict and missing
labels into `non_existing_ports`; a non-empty missing list raises
`HardwareInspectionFailure` with message
`"Could not find requested ports %(ports)s on the node %(node)s"`. -/
def getMacsForDesiredPorts (nodeUuid : Str) (inspectPorts : Str)
    (macs : List (Str × PyVal)) : Except IErr (List (Str × PyVal)) :=
  if lower inspectPorts = "all".data then .ok macs
  else
    let desired := (splitOnChar ',' inspectPorts).map portLabel
    let found := desired.foldl
      (fun acc p =>
        match dictGet macs p with
        | some v => if pyTruthy v then dictInsert acc p v else acc
        | none => acc) []
    let missing := desired.filter (fun p => !truthyGet macs p)
    if missing.isEmpty then .ok found
    else .error (.hardwareInspectionFailure (.portsNotFound missing nodeUuid))

/-- `str(driver_info.get('inspect_ports'))`: Python renders an absent
key (`None`) as the string `"None"`. -/
def strOfOptionStr : Option Str → Str
  | some s => s
  | none => "None".data

/-- `_get_macs_for_desired_ports(node, macs)` reading the selection
expression from the node itself. -/
def getMacsForDesiredPortsNode (node : Node) (macs : List (Str × PyVal)) :
    Except IErr (List (Str × PyVal)) :=
  getMacsForDesiredPorts node.uuid
    (strOfOptionStr (dictGet node.driver_info "inspect_ports".data)) macs

/-- `IloInspect.validate(task)` after the collaborator
`parse_driver_info` call: raise `MissingParameterValue` (message
`"Missing 'inspect_ports' parameter in node's driver_info."`) when the
key is absent, and `InvalidParameterValue` (message
`"inspect_ports can accept either comma separated port numbers, ..."`)
unless the value is `'all'` or `'none'` (case-insensitive) or every
comma-separated token is a non-empty digit string
(`all(s.isdigit() for s in value.split(','))`). -/
def validateInspectPorts (node : Node) : Except IErr Unit :=
  match dictGet node.driver_info "inspect_ports".data with
  | none => .error (.missingParameterValue .missingInspectPorts)
  | some value =>
    if lower value ≠ "all".data ∧ lower value ≠ "none".data ∧
        ¬ (splitOnChar ',' value).all isDigitToken then
      .error (.invalidParameterValue (.invalidInspectPorts value node.uuid))
    else .ok ()

/-- The copy loop
`for known_property in ESSENTIAL_PROPERTIES_KEYS:
inspected_properties[known_property] = properties[known_property]`;
direct indexing raises `KeyError` on an absent key (unreachable after
validation). -/
def pickEssential (props : List (Str × PyVal)) :
    Except IErr (List (Str × PyVal)) :=
  essentialPropertiesKeys.foldlM
    (fun acc k =>
      match dictGet props k with
      | some v => pure (dictInsert acc k v)
      | none => throw (.pyError .keyError)) []

/-- `_get_capabilities(node, ilo_object)`: `IloError` is swallowed
(logged) and the initial `None` is returned. -/
def getCapabilities (env : Env) : Option PyVal :=
  match env.serverCapabilities with
  | .ok v => some v
  | .error _ => none

/-- Lines 360-370 of `inspect_hardware`: query capabilities, and when
the result is truthy, filter it through the allow-list, merge it into
the capabilities string, and store the merged string back in the
properties when it is non-empty.  Returns the node to persist. -/
def capabilityPhase (env : Env) (node1 : Node) : Except IErr Node :=
  match getCapabilities env with
  | some v =>
    if pyTruthy v then
      match createSupportedCapabilitiesDict v with
      | .error e => .error e
      | .ok validCap =>
        match updateCapabilities node1 (.dict validCap) with
        | .error e => .error e
        | .ok capsStr =>
          if capsStr.isEmpty then .ok node1
          else .ok { node1 with
            properties :=
              dictInsert node1.properties "capabilities".data (.str capsStr) }
    else .ok node1
  | none => .ok node1

/-- Lines 382-389 of `inspect_hardware`: re-read
`driver_info['inspect_ports']` (a direct index, `KeyError` if absent);
unless it is `'none'` (case-insensitive... the source compares
`.lower() != 'none'`), select the requested MACs from
`result['macs']` and create ports for a truthy selection. -/
def portPhase (env : Env) (node2 : Node) (result : List (Str × PyVal)) :
    Except IErr Unit × List Event :=
  match dictGet node2.driver_info "inspect_ports".data with
  | none => (.error (.pyError .keyError), [])
  | some ip =>
    if lower ip = "none".data then (.ok (), [])
    else
      match dictGet result "macs".data with
      | some (.dict m) =>
        match getMacsForDesiredPortsNode node2 m with
        | .error e => (.error e, [])
        | .ok selected =>
          if selected.isEmpty then (.ok (), [])
          else createPortsIfNotExist env.createPort node2 selected
      | some _ => (.error (.pyError .typeError), [])
      | none => (.error (.pyError .keyError), [])

/-- `IloInspect.inspect_hardware(task)`: read the power state (failure
is wrapped as `IloOperationError` and aborts), power the node on if
needed, query and validate the essential properties, merge the four
essential keys into the node properties, run the best-effort
capability phase, persist the node once (`task.node.save()`), then
create the requested ports, power the node back off if it was powered
on here, and return `MANAGEABLE`.  Power actuation is performed by the
external conductor and emits no modelled event; the returned trace
records the capability query, the save, and the ports created. -/
def inspectHardware (env : Env) (node : Node) :
    Except IErr FinalState × List Event :=
  match env.powerState with
  | .error e => (.error (.iloOperationError (.inspectingHardware node.uuid) e), [])
  | .ok _state =>
    match getEssentialProperties env node with
    | .error e => (.error e, [])
    | .ok result =>
      match dictGet result "properties".data with
      | some (.dict props) =>
        match pickEssential props with
        | .error e => (.error e, [])
        | .ok inspected =>
          match capabilityPhase env
              { node with properties := dictUpdate node.properties inspected } with
          | .error e => (.error e, [.capabilityQuery])
          | .ok node2 =>
            match portPhase env node2 result with
            | (.ok _, portEvents) =>
              (.ok .manageable, .capabilityQuery :: .save node2.properties :: portEvents)
            | (.error e, portEvents) =>
              (.error e, .capabilityQuery :: .save node2.properties :: portEvents)
      | some _ => (.error (.pyError .typeError), [])
      | none => (.error (.pyError .keyError), [])

/-! ## Dictionary lemmas -/

@[simp] theorem dictKeys_nil {α : Type} : dictKeys ([] : List (Str × α)) = [] := rfl
@[simp] theorem dictKeys_cons {α : Type} (kv : Str × α) (rest : List (Str × α)) :
    dictKeys (kv :: rest) = kv.1 :: dictKeys rest := rfl

theorem dictGet_dictInsert {α : Type} (d : List (Str × α)) (k q : Str) (v : α) :
    dictGet (dictInsert d k v) q = if k = q then some v else dictGet d q := by
  induction d with
  | nil => simp only [dictInsert, dictGet]
  | cons kv rest ih =>
    obtain ⟨k', v'⟩ := kv
    by_cases hk : k' = k
    · subst hk
      by_cases hq : k' = q
      · subst hq
        simp [dictInsert, dictGet]
      · simp [dictInsert, dictGet, hq]
    · by_cases hq : k' = q
      · subst hq
        have hkq : k ≠ k' := fun h => hk h.symm
        simp [dictInsert, dictGet, hk, hkq]
      · simp [dictInsert, dictGet, hk, hq, ih]

theorem dictGet_eq_none_iff {α : Type} (d : List (Str × α)) (k : Str) :
    dictGet d k = none ↔ k ∉ dictKeys d := by
  induction d with
  | nil => simp [dictGet]
  | cons kv rest ih =>
    obtain ⟨k', v'⟩ := kv
    by_cases h : k' = k
    · subst h
      simp [dictGet, List.mem_cons]
    · have h' : k ≠ k' := fun hh => h hh.symm
      simp [dictGet, h, h', ih, List.mem_cons]

theorem lastGet_eq_none_iff {α : Type} (l : List (Str × α)) (k : Str) :
    lastGet l k = none ↔ k ∉ dictKeys l := by
  induction l with
  | nil => simp [lastGet]
  | cons kv rest ih =>
    obtain ⟨k', v'⟩ := kv
    simp only [lastGet, dictKeys_cons, List.mem_cons]
    cases hr : lastGet rest k with
    | some v'' =>
      have hmem : k ∈ dictKeys rest := by
        by_contra hc
        rw [ih.mpr hc] at hr
        exact Option.noConfusion hr
      simp only [reduceCtorEq, false_iff, not_or]
      exact fun hh => hh.2 hmem
    | none =>
      have hnm := ih.mp hr
      by_cases h : k' = k
      · subst h
        simp [hnm]
      · have h' : k ≠ k' := fun hh => h hh.symm
        simp [h, h', hnm]

theorem lastGet_eq_dictGet_of_nodup {α : Type} (l : List (Str × α)) (k : Str)
    (h : (dictKeys l).Nodup) : lastGet l k = dictGet l k := by
  induction l with
  | nil => rfl
  | cons kv rest ih =>
    obtain ⟨k', v'⟩ := kv
    simp only [dictKeys_cons, List.nodup_cons] at h
    simp only [lastGet, dictGet]
    by_cases hk : k' = k
    · subst hk
      have hnone : lastGet rest k' = none := (lastGet_eq_none_iff rest k').mpr h.1
      simp [hnone]
    · rw [← ih h.2]
      cases lastGet rest k <;> simp [hk]

theorem dictGet_foldl_insert {α : Type} (l : List (Str × α)) :
    ∀ (base : List (Str × α)) (k : Str),
      dictGet (l.foldl (fun acc kv => dictInsert acc kv.1 kv.2) base) k =
        match lastGet l k with
        | some v => some v
        | none => dictGet base k := by
  induction l with
  | nil => intro base k; rfl
  | cons kv rest ih =>
    intro base k
    obtain ⟨k', v'⟩ := kv
    simp only [List.foldl_cons, ih, lastGet]
    cases lastGet rest k with
    | some v'' => rfl
    | none =>
      simp only [dictGet_dictInsert]
      by_cases h : k' = k <;> simp [h]

theorem dictGet_dictUpdate {α : Type} (base l : List (Str × α)) (k : Str) :
    dictGet (dictUpdate base l) k =
      match lastGet l k with
      | some v => some v
      | none => dictGet base k :=
  dictGet_foldl_insert l base k

theorem dictGet_dictOfPairs {α : Type} (l : List (Str × α)) (k : Str) :
    dictGet (dictOfPairs l) k = lastGet l k := by
  have h := dictGet_dictUpdate [] l k
  simp only [dictOfPairs]
  rw [h]
  cases lastGet l k <;> rfl

theorem dictKeys_dictInsert_mem {α : Type} (d : List (Str × α)) (k : Str) (v : α)
    (h : k ∈ dictKeys d) : dictKeys (dictInsert d k v) = dictKeys d := by
  induction d with
  | nil => simp at h
  | cons kv rest ih =>
    obtain ⟨k', v'⟩ := kv
    by_cases hk : k' = k
    · subst hk
      simp [dictInsert]
    · simp only [dictKeys_cons, List.mem_cons] at h
      rcases h with h | h
      · exact absurd h.symm hk
      · simp only [dictInsert, if_neg hk, dictKeys_cons]
        exact congrArg (k' :: ·) (ih h)

theorem dictKeys_dictInsert_not_mem {α : Type} (d : List (Str × α)) (k : Str) (v : α)
    (h : k ∉ dictKeys d) : dictInsert d k v = d ++ [(k, v)] := by
  induction d with
  | nil => rfl
  | cons kv rest ih =>
    obtain ⟨k', v'⟩ := kv
    simp only [dictKeys_cons, List.mem_cons, not_or] at h
    have h1 : k' ≠ k := fun hh => h.1 hh.symm
    simp [dictInsert, h1, ih h.2]

theorem dictKeys_dictInsert_nodup {α : Type} (d : List (Str × α)) (k : Str) (v : α)
    (h : (dictKeys d).Nodup) : (dictKeys (dictInsert d k v)).Nodup := by
  by_cases hm : k ∈ dictKeys d
  · rw [dictKeys_dictInsert_mem d k v hm]; exact h
  · rw [dictKeys_dictInsert_not_mem d k v hm]
    have : dictKeys (d ++ [(k, v)]) = dictKeys d ++ [k] := by
      simp [dictKeys]
    rw [this]
    simp only [List.nodup_append, List.nodup_cons, List.not_mem_nil, not_false_iff,
      List.nodup_nil, and_true, true_and]
    constructor
    · exact h
    · intro x hx
      simp only [List.mem_singleton]
      exact fun he => hm (he ▸ hx)

theorem dictKeys_dictUpdate_nodup {α : Type} (l : List (Str × α)) :
    ∀ (base : List (Str × α)), (dictKeys base).Nodup →
      (dictKeys (dictUpdate base l)).Nodup := by
  induction l with
  | nil => intro base h; exact h
  | cons kv rest ih =>
    intro base h
    exact ih (dictInsert base kv.1 kv.2) (dictKeys_dictInsert_nodup base kv.1 kv.2 h)

theorem dictKeys_dictOfPairs_nodup {α : Type} (l : List (Str × α)) :
    (dictKeys (dictOfPairs l)).Nodup :=
  dictKeys_dictUpdate_nodup l [] (by simp)

theorem mem_dictInsert {α : Type} (d : List (Str × α)) (k : Str) (v : α)
    (kv : Str × α) (h : kv ∈ dictInsert d k v) : kv ∈ d ∨ kv = (k, v) := by
  induction d with
  | nil =>
    simp only [dictInsert, List.mem_singleton] at h
    exact Or.inr h
  | cons kv' rest ih =>
    obtain ⟨k', v'⟩ := kv'
    by_cases hk : k' = k
    · subst hk
      simp [dictInsert] at h
      rcases h with h1 | h1
      · exact Or.inr (by simp [h1])
      · exact Or.inl (List.mem_cons_of_mem _ h1)
    · simp only [dictInsert, if_neg hk, List.mem_cons] at h
      rcases h with h1 | h1
      · exact Or.inl (by simp [h1])
      · rcases ih h1 with h2 | h2
        · exact Or.inl (List.mem_cons_of_mem _ h2)
        · exact Or.inr h2

theorem mem_dictUpdate {α : Type} (l : List (Str × α)) :
    ∀ (base : List (Str × α)) (kv : Str × α),
      kv ∈ dictUpdate base l → kv ∈ base ∨ kv ∈ l := by
  induction l with
  | nil => intro base kv h; exact Or.inl h
  | cons kv' rest ih =>
    intro base kv h
    rcases ih (dictInsert base kv'.1 kv'.2) kv h with h' | h'
    · rcases mem_dictInsert base kv'.1 kv'.2 kv h' with h'' | h''
      · exact Or.inl h''
      · exact Or.inr (by simp [h''])
    · exact Or.inr (List.mem_cons_of_mem _ h')

theorem dictInsert_ne_nil {α : Type} (d : List (Str × α)) (k : Str) (v : α) :
    dictInsert d k v ≠ [] := by
  cases d with
  | nil => simp [dictInsert]
  | cons kv rest =>
    obtain ⟨k', v'⟩ := kv
    by_cases h : k' = k <;> simp [dictInsert, h]

theorem dictUpdate_ne_nil {α : Type} (l : List (Str × α)) :
    ∀ (base : List (Str × α)), base ≠ [] → dictUpdate base l ≠ [] := by
  induction l with
  | nil => intro base hb; exact hb
  | cons kv rest ih =>
    intro base _
    exact ih (dictInsert base kv.1 kv.2) (dictInsert_ne_nil base kv.1 kv.2)

theorem dictOfPairs_ne_nil {α : Type} (p : Str × α) (ps : List (Str × α)) :
    dictOfPairs (p :: ps) ≠ [] := by
  show dictUpdate [] (p :: ps) ≠ []
  simp only [dictUpdate, List.foldl_cons]
  exact dictUpdate_ne_nil ps (dictInsert [] p.1 p.2) (dictInsert_ne_nil [] p.1 p.2)

theorem dictGet_map_val {α β : Type} (f : α → β) (d : List (Str × α)) (k : Str) :
    dictGet (d.map (fun kv => (kv.1, f kv.2))) k = (dictGet d k).map f := by
  induction d with
  | nil => rfl
  | cons kv rest ih =>
    obtain ⟨k', v'⟩ := kv
    by_cases h : k' = k <;> simp [dictGet, h, ih]

theorem dictKeys_map_val {α β : Type} (f : α → β) (d : List (Str × α)) :
    dictKeys (d.map (fun kv => (kv.1, f kv.2))) = dictKeys d := by
  induction d with
  | nil => rfl
  | cons kv rest ih =>
    simp only [List.map_cons, dictKeys_cons, ih]

theorem dictUpdate_append_of_disjoint {α : Type} (l : List (Str × α)) :
    ∀ (base : List (Str × α)), (dictKeys l).Nodup →
      (∀ k ∈ dictKeys l, k ∉ dictKeys base) → dictUpdate base l = base ++ l := by
  induction l with
  | nil => intro base _ _; simp [dictUpdate]
  | cons kv rest ih =>
    intro base hnodup hdisj
    obtain ⟨k, v⟩ := kv
    simp only [dictKeys_cons, List.nodup_cons] at hnodup
    have hkb : k ∉ dictKeys base := hdisj k (by simp)
    have hstep : dictInsert base k v = base ++ [(k, v)] :=
      dictKeys_dictInsert_not_mem base k v hkb
    show dictUpdate (dictInsert base k v) rest = base ++ (k, v) :: rest
    rw [hstep, ih (base ++ [(k, v)]) hnodup.2, List.append_assoc]
    · rfl
    · intro q hq
      have hq1 : q ≠ k := fun he => hnodup.1 (he ▸ hq)
      have hq2 : q ∉ dictKeys base := hdisj q (by simp [hq])
      intro hmem
      have hkeys : dictKeys (base ++ [(k, v)]) = dictKeys base ++ [k] := by
        simp [dictKeys]
      rw [hkeys] at hmem
      rcases List.mem_append.mp hmem with h | h
      · exact hq2 h
      · exact hq1 (List.mem_singleton.mp h)

theorem dictOfPairs_eq_self {α : Type} (l : List (Str × α))
    (h : (dictKeys l).Nodup) : dictOfPairs l = l := by
  have hh := dictUpdate_append_of_disjoint l [] h (by simp)
  simpa [dictOfPairs] using hh

/-! ## Split and join lemmas -/

theorem splitOnChar_ne_nil (c : Char) (s : Str) : splitOnChar c s ≠ [] := by
  induction s with
  | nil => simp [splitOnChar]
  | cons x rest ih =>
    by_cases h : x = c
    · simp [splitOnChar, h]
    · simp only [splitOnChar, if_neg h]
      cases hs : splitOnChar c rest with
      | nil => simp
      | cons t ts => simp

theorem not_mem_of_mem_splitOnChar (c : Char) (s : Str) :
    ∀ t ∈ splitOnChar c s, c ∉ t := by
  induction s with
  | nil =>
    intro t ht
    simp only [splitOnChar, List.mem_singleton] at ht
    simp [ht]
  | cons x rest ih =>
    intro t ht
    by_cases h : x = c
    · simp only [splitOnChar, if_pos h, List.mem_cons] at ht
      rcases ht with ht | ht
      · simp [ht]
      · exact ih t ht
    · simp only [splitOnChar, if_neg h] at ht
      cases hs : splitOnChar c rest with
      | nil => exact absurd hs (splitOnChar_ne_nil c rest)
      | cons t0 ts =>
        rw [hs] at ht
        rcases List.mem_cons.mp ht with ht1 | ht1
        · subst ht1
          intro hc
          rcases List.mem_cons.mp hc with hc | hc
          · exact h hc.symm
          · exact ih t0 (hs ▸ List.mem_cons_self t0 ts) hc
        · exact ih t (hs ▸ List.mem_cons_of_mem t0 ht1)

theorem splitOnChar_of_not_mem (c : Char) (s : Str) (h : c ∉ s) :
    splitOnChar c s = [s] := by
  induction s with
  | nil => rfl
  | cons x rest ih =>
    simp only [List.mem_cons, not_or] at h
    have hx : x ≠ c := fun he => h.1 he.symm
    have hr := ih h.2
    simp [splitOnChar, hx, hr]

theorem splitOnChar_append (c : Char) (x t : Str) (h : c ∉ x) :
    splitOnChar c (x ++ c :: t) = x :: splitOnChar c t := by
  induction x with
  | nil => simp [splitOnChar]
  | cons y x' ih =>
    simp only [List.mem_cons, not_or] at h
    have hy : y ≠ c := fun he => h.1 he.symm
    have hr := ih h.2
    simp only [List.cons_append, splitOnChar, if_neg hy, List.append_eq, hr]

theorem joinChar_nil (c : Char) : joinChar c [] = [] := by
  simp [joinChar, List.intercalate]

theorem joinChar_single (c : Char) (p : Str) : joinChar c [p] = p := by
  simp [joinChar, List.intercalate]

theorem joinChar_cons₂ (c : Char) (x y : Str) (rest : List Str) :
    joinChar c (x :: y :: rest) = x ++ c :: joinChar c (y :: rest) := by
  simp [joinChar, List.intercalate, List.intersperse]

theorem splitOnChar_joinChar (c : Char) (parts : List Str) (hne : parts ≠ [])
    (h : ∀ p ∈ parts, c ∉ p) : splitOnChar c (joinChar c parts) = parts := by
  induction parts with
  | nil => exact absurd rfl hne
  | cons p rest ih =>
    cases rest with
    | nil =>
      rw [joinChar_single]
      exact splitOnChar_of_not_mem c p (h p (by simp))
    | cons q rest' =>
      rw [joinChar_cons₂]
      rw [splitOnChar_append c p (joinChar c (q :: rest')) (h p (by simp))]
      rw [ih (by simp) (fun x hx => h x (List.mem_cons_of_mem p hx))]

theorem splitFirst_eq_none_iff (c : Char) (s : Str) :
    splitFirst c s = none ↔ c ∉ s := by
  induction s with
  | nil => simp [splitFirst]
  | cons x rest ih =>
    by_cases h : x = c
    · subst h
      simp [splitFirst]
    · have h' : c ≠ x := fun he => h he.symm
      simp only [splitFirst, if_neg h, List.mem_cons]
      cases hs : splitFirst c rest with
      | some p => simp [hs, h', ih.symm.not.mpr (by simp [hs])]
      | none => simp [hs, h', ih.mp hs]

theorem splitFirst_append (c : Char) (k v : Str) (h : c ∉ k) :
    splitFirst c (k ++ c :: v) = some (k, v) := by
  induction k with
  | nil => simp [splitFirst]
  | cons y k' ih =>
    simp only [List.mem_cons, not_or] at h
    have hy : y ≠ c := fun he => h.1 he.symm
    have hr := ih h.2
    simp [splitFirst, hy, hr]

theorem splitFirst_eq_some (c : Char) (s a b : Str)
    (h : splitFirst c s = some (a, b)) : c ∉ a ∧ s = a ++ c :: b := by
  induction s generalizing a b with
  | nil => exact absurd h (by simp [splitFirst])
  | cons x rest ih =>
    by_cases hx : x = c
    · subst hx
      have hstep : splitFirst x (x :: rest) = some ([], rest) := by
        simp [splitFirst]
      rw [hstep] at h
      have h' : (([], rest) : Str × Str) = (a, b) := Option.some_inj.mp h
      cases h'
      simp
    · have hstep : splitFirst c (x :: rest) =
          (splitFirst c rest).map (fun p => (x :: p.1, p.2)) := by
        simp [splitFirst, hx]
      rw [hstep] at h
      cases hs : splitFirst c rest with
      | none =>
        rw [hs] at h
        exact absurd h (by simp)
      | some p =>
        obtain ⟨a', b'⟩ := p
        rw [hs] at h
        have h' : ((x :: a', b') : Str × Str) = (a, b) :=
          Option.some_inj.mp (by simpa using h)
        obtain ⟨hca, hrest⟩ := ih a' b' hs
        cases h'
        constructor
        · intro hc
          rcases List.mem_cons.mp hc with hc | hc
          · exact hx hc.symm
          · exact hca hc
        · simp [hrest]

/-! ## Parse and serialize lemmas for the capability string -/

theorem mapM_option_mem {α β : Type} (f : α → Option β) (l : List α) :
    ∀ (out : List β), l.mapM f = some out → ∀ y ∈ out, ∃ x ∈ l, f x = some y := by
  induction l with
  | nil =>
    intro out h y hy
    rw [List.mapM_nil] at h
    have hout : ([] : List β) = out := Option.some_inj.mp h
    rw [← hout] at hy
    simp at hy
  | cons x rest ih =>
    intro out h y hy
    rw [List.mapM_cons] at h
    cases hx : f x with
    | none =>
      rw [hx] at h
      exact absurd h (by simp)
    | some z =>
      rw [hx] at h
      cases hrest : rest.mapM f with
      | none =>
        rw [hrest] at h
        exact absurd h (by simp)
      | some zs =>
        rw [hrest] at h
        have hout : z :: zs = out := Option.some_inj.mp (by simpa using h)
        rw [← hout] at hy
        rcases List.mem_cons.mp hy with hy1 | hy1
        · exact ⟨x, by simp, hy1 ▸ hx⟩
        · obtain ⟨x', hx', hfx'⟩ := ih zs hrest y hy1
          exact ⟨x', List.mem_cons_of_mem x hx', hfx'⟩

theorem mapM_option_ne_nil {α β : Type} (f : α → Option β) (x : α) (l : List α)
    (out : List β) (h : (x :: l).mapM f = some out) : out ≠ [] := by
  rw [List.mapM_cons] at h
  cases hx : f x with
  | none =>
    rw [hx] at h
    exact absurd h (by simp)
  | some z =>
    rw [hx] at h
    cases hrest : l.mapM f with
    | none =>
      rw [hrest] at h
      exact absurd h (by simp)
    | some zs =>
      rw [hrest] at h
      have hout : z :: zs = out := Option.some_inj.mp (by simpa using h)
      rw [← hout]
      simp

theorem mapM_splitFirst_serialize (md : List (Str × PyVal))
    (hk : ∀ kv ∈ md, ':' ∉ kv.1) :
    (md.map (fun kv => kv.1 ++ ':' :: pyStr kv.2)).mapM (splitFirst ':') =
      some (md.map (fun kv => (kv.1, pyStr kv.2))) := by
  induction md with
  | nil => rfl
  | cons kv rest ih =>
    rw [List.map_cons, List.mapM_cons]
    rw [splitFirst_append ':' kv.1 (pyStr kv.2) (hk kv (by simp))]
    rw [ih (fun x hx => hk x (List.mem_cons_of_mem kv hx))]
    rfl

theorem parseCapabilities_entry_wf (s : Str) (pm : List (Str × Str))
    (h : parseCapabilities s = some pm) :
    ∀ kv ∈ pm, ',' ∉ kv.1 ∧ ':' ∉ kv.1 ∧ ',' ∉ kv.2 := by
  unfold parseCapabilities at h
  cases hp : (splitOnChar ',' s).mapM (splitFirst ':') with
  | none =>
    rw [hp] at h
    exact absurd h (by simp)
  | some pairs =>
    rw [hp] at h
    have hpm : dictOfPairs pairs = pm := Option.some_inj.mp (by simpa using h)
    intro kv hkv
    obtain ⟨a, b⟩ := kv
    have hkv'' : (a, b) ∈ dictOfPairs pairs := by rw [hpm]; exact hkv
    have hkv' : (a, b) ∈ pairs := by
      rcases mem_dictUpdate pairs [] (a, b) hkv'' with h' | h'
      · simp at h'
      · exact h'
    obtain ⟨t, ht, hsp⟩ :=
      mapM_option_mem (splitFirst ':') (splitOnChar ',' s) pairs hp (a, b) hkv'
    obtain ⟨hca, hteq⟩ := splitFirst_eq_some ':' t a b hsp
    have hcomma : ',' ∉ t := not_mem_of_mem_splitOnChar ',' s t ht
    rw [hteq] at hcomma
    refine ⟨fun hc => hcomma (List.mem_append.mpr (Or.inl hc)), hca, fun hc => ?_⟩
    exact hcomma (List.mem_append.mpr (Or.inr (List.mem_cons_of_mem ':' hc)))

theorem parseCapabilities_keys_nodup (s : Str) (pm : List (Str × Str))
    (h : parseCapabilities s = some pm) : (dictKeys pm).Nodup := by
  unfold parseCapabilities at h
  cases hp : (splitOnChar ',' s).mapM (splitFirst ':') with
  | none =>
    rw [hp] at h
    exact absurd h (by simp)
  | some pairs =>
    rw [hp] at h
    have hpm : dictOfPairs pairs = pm := Option.some_inj.mp (by simpa using h)
    rw [← hpm]
    exact dictKeys_dictOfPairs_nodup pairs

theorem parseCapabilities_ne_nil (s : Str) (pm : List (Str × Str))
    (h : parseCapabilities s = some pm) : pm ≠ [] := by
  unfold parseCapabilities at h
  cases hsp : splitOnChar ',' s with
  | nil => exact absurd hsp (splitOnChar_ne_nil ',' s)
  | cons t ts =>
    rw [hsp] at h
    cases hp : (t :: ts).mapM (splitFirst ':') with
    | none =>
      rw [hp] at h
      exact absurd h (by simp)
    | some pairs =>
      rw [hp] at h
      have hpm : dictOfPairs pairs = pm := Option.some_inj.mp (by simpa using h)
      have hpne : pairs ≠ [] := mapM_option_ne_nil (splitFirst ':') t ts pairs hp
      cases pairs with
      | nil => exact absurd rfl hpne
      | cons p ps =>
        rw [← hpm]
        exact dictOfPairs_ne_nil p ps

theorem append_cons_ne_nil (a : Str) (c : Char) (b : Str) : a ++ c :: b ≠ [] := by
  cases a <;> simp

theorem serializeCapabilities_eq_nil_iff (md : List (Str × PyVal)) :
    serializeCapabilities md = [] ↔ md = [] := by
  constructor
  · intro h
    cases md with
    | nil => rfl
    | cons kv rest =>
      exfalso
      cases rest with
      | nil =>
        rw [show serializeCapabilities [kv] = kv.1 ++ ':' :: pyStr kv.2 from by
          simp [serializeCapabilities, joinChar_single]] at h
        exact append_cons_ne_nil kv.1 ':' (pyStr kv.2) h
      | cons kv2 rest2 =>
        rw [show serializeCapabilities (kv :: kv2 :: rest2) =
            (kv.1 ++ ':' :: pyStr kv.2) ++ ',' ::
              joinChar ',' ((kv2 :: rest2).map (fun x => x.1 ++ ':' :: pyStr x.2)) from by
          simp [serializeCapabilities, joinChar_cons₂]] at h
        rcases List.append_eq_nil.mp h with ⟨h1, _⟩
        exact append_cons_ne_nil kv.1 ':' (pyStr kv.2) h1
  · intro h
    rw [h]
    rfl

theorem parseCapabilities_serializeCapabilities (md : List (Str × PyVal))
    (hne : md ≠ [])
    (hwf : ∀ kv ∈ md, ',' ∉ kv.1 ∧ ':' ∉ kv.1 ∧ ',' ∉ pyStr kv.2)
    (hnodup : (dictKeys md).Nodup) :
    parseCapabilities (serializeCapabilities md) =
      some (md.map (fun kv => (kv.1, pyStr kv.2))) := by
  unfold parseCapabilities serializeCapabilities
  have hentries : ∀ e ∈ md.map (fun kv => kv.1 ++ ':' :: pyStr kv.2), ',' ∉ e := by
    intro e he
    rw [List.mem_map] at he
    obtain ⟨kv, hkv, rfl⟩ := he
    obtain ⟨h1, h2, h3⟩ := hwf kv hkv
    intro hc
    rcases List.mem_append.mp hc with hc | hc
    · exact h1 hc
    · rcases List.mem_cons.mp hc with hc | hc
      · exact absurd hc (by decide)
      · exact h3 hc
  have hmapne : md.map (fun kv => kv.1 ++ ':' :: pyStr kv.2) ≠ [] := by
    intro hcontra
    exact hne (List.map_eq_nil_iff.mp hcontra)
  rw [splitOnChar_joinChar ',' _ hmapne hentries]
  rw [mapM_splitFirst_serialize md (fun kv hkv => (hwf kv hkv).2.1)]
  exact congrArg some
    (dictOfPairs_eq_self _ (by rw [dictKeys_map_val]; exact hnodup))

/-! ## Character lemmas for the selection expression -/

theorem toLower_of_isDigit (c : Char) (h : c.isDigit = true) : c.toLower = c := by
  simp only [Char.isDigit, Bool.and_eq_true, decide_eq_true_eq] at h
  obtain ⟨hlo, hhi⟩ := h
  have hhi' : c.val.toNat ≤ 57 := hhi
  simp only [Char.toLower, Char.toNat]
  rw [if_neg]
  intro hcon
  obtain ⟨h65, _⟩ := hcon
  omega

/-- A selection expression all of whose comma-separated tokens are
non-empty digit strings cannot lowercase to the word `all`. -/
theorem numeric_not_all (expr : Str)
    (hnum : ∀ t ∈ splitOnChar ',' expr, t ≠ [] ∧ ∀ c ∈ t, c.isDigit = true) :
    lower expr ≠ "all".data := by
  intro hall
  have hdata : "all".data = ['a', 'l', 'l'] := rfl
  have hcm : ',' ∉ expr := by
    intro hc
    have hmem : (',' : Char).toLower ∈ lower expr :=
      List.mem_map_of_mem Char.toLower hc
    rw [hall, hdata] at hmem
    have hcl : (',' : Char).toLower = ',' := by decide
    rw [hcl] at hmem
    rcases List.mem_cons.mp hmem with h | h
    · exact absurd h (by decide)
    rcases List.mem_cons.mp h with h | h
    · exact absurd h (by decide)
    rcases List.mem_cons.mp h with h | h
    · exact absurd h (by decide)
    · simp at h
  have hsplit : splitOnChar ',' expr = [expr] := splitOnChar_of_not_mem ',' expr hcm
  obtain ⟨hne, hdig⟩ := hnum expr (by rw [hsplit]; simp)
  cases expr with
  | nil => exact hne rfl
  | cons c rest =>
    have hc : c.isDigit = true := hdig c (by simp)
    have hcons : c.toLower :: rest.map Char.toLower = ['a', 'l', 'l'] := by
      rw [← hdata, ← hall]
      rfl
    have hlow : c.toLower = 'a' := (List.cons_eq_cons.mp hcons).1
    rw [toLower_of_isDigit c hc] at hlow
    subst hlow
    exact absurd hc (by decide)

/-- What the collection loop of the port selection policy leaves in
`to_be_created_macs`, for any accumulator. -/
theorem dictGet_found_fold (macs : List (Str × PyVal)) (desired : List Str) :
    ∀ (acc : List (Str × PyVal)) (q : Str),
      dictGet (desired.foldl (fun acc p =>
        match dictGet macs p with
        | some v => if pyTruthy v then dictInsert acc p v else acc
        | none => acc) acc) q =
      if q ∈ desired ∧ truthyGet macs q = true then dictGet macs q
      else dictGet acc q := by
  induction desired with
  | nil =>
    intro acc q
    simp
  | cons p rest ih =>
    intro acc q
    rw [List.foldl_cons, ih]
    by_cases hq : q ∈ rest ∧ truthyGet macs q = true
    · rw [if_pos hq, if_pos ⟨List.mem_cons_of_mem p hq.1, hq.2⟩]
    · rw [if_neg hq]
      by_cases hpq : p = q
      · subst hpq
        cases hm : dictGet macs p with
        | some v =>
          simp only [hm]
          by_cases hv : pyTruthy v = true
          · have ht : truthyGet macs p = true := by
              simp [truthyGet, hm, hv]
            rw [if_pos hv, dictGet_dictInsert, if_pos rfl,
              if_pos ⟨List.mem_cons_self p rest, ht⟩]
          · have ht : truthyGet macs p = false := by
              simp only [truthyGet, hm]
              exact Bool.eq_false_iff.mpr hv
            rw [if_neg hv, if_neg (fun hcon => by
              have hcon2 := hcon.2
              rw [ht] at hcon2
              exact Bool.noConfusion hcon2)]
        | none =>
          have ht : truthyGet macs p = false := by
            simp [truthyGet, hm]
          simp only [hm]
          rw [if_neg (fun hcon => by
            have hcon2 := hcon.2
            rw [ht] at hcon2
            exact Bool.noConfusion hcon2)]
      · have hcond : ¬ (q ∈ p :: rest ∧ truthyGet macs q = true) := by
          intro hcon
          rcases List.mem_cons.mp hcon.1 with h | h
          · exact hpq h.symm
          · exact hq ⟨h, hcon.2⟩
        rw [if_neg hcond]
        cases hm : dictGet macs p with
        | some v =>
          simp only [hm]
          by_cases hv : pyTruthy v = true
          · rw [if_pos hv, dictGet_dictInsert, if_neg hpq]
          · rw [if_neg hv]
        | none => simp only [hm]

/-! ## Claim C9: the configuration validator -/

/-- Modelled from the spec (for the refutation only): the three forms
the claim says are accepted, with the numeric form read literally as a
comma-separated list of positive integers (each token a digit string
whose value is positive).  The code itself accepts any all-digit
tokens, including `0`. -/
def specPortSelectionForm (v : Str) : Bool :=
  (lower v = "all".data) || (lower v = "none".data) ||
    (splitOnChar ',' v).all
      (fun t => isDigitToken t &&
        (t.foldl (fun acc c => acc * 10 + (c.toNat - 48)) 0 != 0))

/-- C9 counterexample: the expression `"0"` is not `all`, not `none`
and not a comma-separated list of positive integers, so the claim says
the Config Validator must fail on it; but `"0".isdigit()` holds, so
`IloInspect.validate` accepts it. -/
theorem C9_counterexample :
    validateInspectPorts
      ⟨"node-1".data, 1, [], [("inspect_ports".data, "0".data)]⟩ = .ok () ∧
    specPortSelectionForm "0".data = false := by
  constructor
  · rfl
  · rfl

theorem validateInspectPorts_absent (node : Node)
    (hd : dictGet node.driver_info "inspect_ports".data = none) :
    validateInspectPorts node = .error (.missingParameterValue .missingInspectPorts) := by
  unfold validateInspectPorts
  rw [hd]

theorem validateInspectPorts_present (node : Node) (v : Str)
    (hd : dictGet node.driver_info "inspect_ports".data = some v) :
    validateInspectPorts node =
      if lower v ≠ "all".data ∧ lower v ≠ "none".data ∧
          ¬ (splitOnChar ',' v).all isDigitToken = true then
        .error (.invalidParameterValue (.invalidInspectPorts v node.uuid))
      else .ok () := by
  unfold validateInspectPorts
  rw [hd]

/-- C9 (amended): the validator fails with `MissingParameterValue`
exactly when `inspect_ports` is absent, and accepts a present value
exactly when it is `all` or `none` (case-insensitive) or every
comma-separated token is a non-empty string of digits (`0` included,
unlike the positive-integer reading of the claim). -/
theorem C9_config_validator (node : Node) :
    (validateInspectPorts node = .error (.missingParameterValue .missingInspectPorts) ↔
      dictGet node.driver_info "inspect_ports".data = none) ∧
    (∀ v, dictGet node.driver_info "inspect_ports".data = some v →
      (validateInspectPorts node = .ok () ↔
        (lower v = "all".data ∨ lower v = "none".data ∨
          (splitOnChar ',' v).all isDigitToken = true))) := by
  constructor
  · cases hd : dictGet node.driver_info "inspect_ports".data with
    | none => simp [validateInspectPorts_absent node hd, hd]
    | some v =>
      rw [validateInspectPorts_present node v hd]
      constructor
      · intro h
        by_cases hc : (lower v ≠ "all".data ∧ lower v ≠ "none".data ∧
            ¬ (splitOnChar ',' v).all isDigitToken = true)
        · rw [if_pos hc] at h
          exact absurd h (by simp)
        · rw [if_neg hc] at h
          exact absurd h (by simp)
      · intro h
        exact absurd h (by simp)
  · intro v hv
    rw [validateInspectPorts_present node v hv]
    by_cases hc : (lower v ≠ "all".data ∧ lower v ≠ "none".data ∧
        ¬ (splitOnChar ',' v).all isDigitToken = true)
    · rw [if_pos hc]
      constructor
      · intro h
        exact absurd h (by simp)
      · intro h
        exfalso
        rcases h with h | h | h
        · exact hc.1 h
        · exact hc.2.1 h
        · exact hc.2.2 h
    · rw [if_neg hc]
      constructor
      · intro _
        by_contra hcon
        push_neg at hcon
        exact hc ⟨hcon.1, hcon.2.1, fun hall => hcon.2.2 hall⟩
      · intro _
        rfl

/-- C9 witness: a two-port numeric expression is accepted. -/
theorem C9_config_validator_witness :
    validateInspectPorts
      ⟨"node-1".data, 1, [], [("inspect_ports".data, "1,2".data)]⟩ = .ok () :=
  ((C9_config_validator
      ⟨"node-1".data, 1, [], [("inspect_ports".data, "1,2".data)]⟩).2
    "1,2".data rfl).mpr (Or.inr (Or.inr (by decide)))

/-! ## Claim C8: the port creation loop -/

/-- Whether the store accepts the creation of a port for `v`. -/
def createOk (createPort : PyVal → Except StoreErr Unit) (v : PyVal) : Bool :=
  match createPort v with
  | .ok _ => true
  | .error _ => false

/-- C8: `MACAlreadyExists` is caught per MAC and the loop continues
with the remaining MACs (the workflow does not fail, and every MAC the
store accepts still gets its port), while any other store failure
propagates to the caller unmodified. -/
theorem C8_duplicate_mac_recoverable (createPort : PyVal → Except StoreErr Unit)
    (nodeId : Int) (vs : List PyVal) :
    ((∀ v ∈ vs, ∀ e, createPort v ≠ .error (.dbFailure e)) →
      createPortsLoop createPort nodeId vs =
        (.ok (), (vs.filter (createOk createPort)).map
          (fun v => Event.portCreated v nodeId))) ∧
    (∀ pre v post e, vs = pre ++ v :: post →
      (∀ x ∈ pre, ∀ e2, createPort x ≠ .error (.dbFailure e2)) →
      createPort v = .error (.dbFailure e) →
      (createPortsLoop createPort nodeId vs).1 = .error (.dbError e)) := by
  constructor
  · intro h
    induction vs with
    | nil => rfl
    | cons v rest ih =>
      have hv := h v (by simp)
      have hrest := ih (fun x hx e => h x (List.mem_cons_of_mem v hx) e)
      cases hcv : createPort v with
      | ok u =>
        obtain ⟨⟩ := u
        simp only [createPortsLoop, hcv, hrest]
        have hok : createOk createPort v = true := by simp [createOk, hcv]
        rw [List.filter_cons_of_pos hok]
        rfl
      | error se =>
        cases se with
        | macAlreadyExists =>
          simp only [createPortsLoop, hcv, hrest]
          have hko : createOk createPort v = false := by simp [createOk, hcv]
          rw [List.filter_cons_of_neg (by simp [hko])]
        | dbFailure e => exact absurd hcv (hv e)
  · intro pre v post e hvs hpre hv
    subst hvs
    induction pre with
    | nil =>
      simp only [List.nil_append, createPortsLoop, hv]
    | cons x pre' ih =>
      have hx := hpre x (by simp)
      have hrec := ih (fun y hy e2 => hpre y (List.mem_cons_of_mem x hy) e2)
      cases hcx : createPort x with
      | ok u =>
        obtain ⟨⟩ := u
        simp only [List.cons_append, createPortsLoop, hcx]
        exact hrec
      | error se =>
        cases se with
        | macAlreadyExists =>
          simp only [List.cons_append, createPortsLoop, hcx]
          exact hrec
        | dbFailure e2 => exact absurd hcx (hx e2)

/-- The store behaviour used by the C8 witness: one MAC already
exists, the others are created. -/
def createPortW : PyVal → Except StoreErr Unit := fun v =>
  match v with
  | .str s => if s = "bb:bb:bb:bb:bb:bb".data then .error .macAlreadyExists else .ok ()
  | _ => .ok ()

/-- C8 witness: with a duplicate in the middle, the loop still creates
the surrounding ports and succeeds. -/
theorem C8_duplicate_mac_recoverable_witness :
    createPortsLoop createPortW 7
      [.str "aa:aa:aa:aa:aa:aa".data, .str "bb:bb:bb:bb:bb:bb".data,
       .str "cc:cc:cc:cc:cc:cc".data] =
      (.ok (), [Event.portCreated (.str "aa:aa:aa:aa:aa:aa".data) 7,
                Event.portCreated (.str "cc:cc:cc:cc:cc:cc".data) 7]) := by
  have h := (C8_duplicate_mac_recoverable createPortW 7
    [.str "aa:aa:aa:aa:aa:aa".data, .str "bb:bb:bb:bb:bb:bb".data,
     .str "cc:cc:cc:cc:cc:cc".data]).1
    (by
      intro v hv e
      rcases List.mem_cons.mp hv with h1 | hv
      · subst h1; simp [createPortW]
      rcases List.mem_cons.mp hv with h1 | hv
      · subst h1; simp [createPortW]
      rcases List.mem_cons.mp hv with h1 | hv
      · subst h1; simp [createPortW]
      · simp at hv)
  rw [h]
  rfl

/-! ## Claims C5 and C10: the essential-property validator -/

theorem validate_error_left (node : Node) (data : List (Str × PyVal)) (e : IErr)
    (h : validateProperties node data = .error e) : validate node data = .error e := by
  unfold validate
  rw [h]
  rfl

theorem validate_ok_left (node : Node) (data : List (Str × PyVal))
    (h : validateProperties node data = .ok ()) :
    validate node data = validateMacs node data := by
  unfold validate
  rw [h]
  rfl

theorem validateProperties_not_returned (node : Node) (data : List (Str × PyVal))
    (h : dictGet data "properties".data = none ∨
      dictGet data "properties".data = some (.dict [])) :
    validateProperties node data =
      .error (.hardwareInspectionFailure (.propertiesNotReturned node.uuid)) := by
  unfold validateProperties
  rcases h with h | h
  · rw [h]
  · rw [h]
    simp [pyTruthy]

theorem validateProperties_missing (node : Node) (data : List (Str × PyVal))
    (props : List (Str × PyVal))
    (hp : dictGet data "properties".data = some (.dict props))
    (hne : props ≠ [])
    (hmiss : essentialPropertiesKeys.filter (fun k => (dictGet props k).isNone) ≠ []) :
    validateProperties node data =
      .error (.hardwareInspectionFailure (.serverMissingKeys
        (essentialPropertiesKeys.filter (fun k => (dictGet props k).isNone)))) := by
  have hpt : pyTruthy (.dict props) = true := by
    cases props with
    | nil => exact absurd rfl hne
    | cons a b => rfl
  have hie : (essentialPropertiesKeys.filter
      (fun k => (dictGet props k).isNone)).isEmpty = false := by
    cases hmc : essentialPropertiesKeys.filter (fun k => (dictGet props k).isNone) with
    | nil => exact absurd hmc hmiss
    | cons a b => rfl
  unfold validateProperties
  rw [hp]
  simp only [hpt, hie]
  simp

/-- C5 counterexample: when `properties` is bound to the empty mapping
(a mapping missing all four essential keys), validation fails through
the truthiness branch with the message
`"The node %s didn't return 'properties' as the key with inspection."`,
which does not name the absent essential keys, contradicting the
claim that the error names all absent keys. -/
theorem C5_counterexample :
    validate ⟨"node-1".data, 1, [], []⟩
      [("properties".data, .dict []),
       ("macs".data, .dict [("Port 1".data, .str "aa:aa:aa:aa:aa:aa".data)])] =
      .error (.hardwareInspectionFailure (.propertiesNotReturned "node-1".data)) ∧
    IMsg.propertiesNotReturned "node-1".data ≠
      IMsg.serverMissingKeys essentialPropertiesKeys := by
  constructor
  · rfl
  · intro h
    exact IMsg.noConfusion h

/-- C5 (amended): for a properties value that is a NON-EMPTY mapping
missing a non-empty subset of the four essential keys, validation
fails with the single message
`"Server didn't return the key(s): %(key)s"` whose key list contains
exactly the absent essential keys (the empty mapping instead takes the
falsy branch and reports the `properties` key itself as not
returned). -/
theorem C5_missing_keys_reported_together (node : Node) (data : List (Str × PyVal))
    (props : List (Str × PyVal))
    (hp : dictGet data "properties".data = some (.dict props))
    (hne : props ≠ [])
    (hmiss : essentialPropertiesKeys.filter (fun k => (dictGet props k).isNone) ≠ []) :
    validate node data =
      .error (.hardwareInspectionFailure (.serverMissingKeys
        (essentialPropertiesKeys.filter (fun k => (dictGet props k).isNone)))) ∧
    (∀ k, k ∈ essentialPropertiesKeys.filter (fun k => (dictGet props k).isNone) ↔
      (k ∈ essentialPropertiesKeys ∧ dictGet props k = none)) := by
  constructor
  · exact validate_error_left node data _
      (validateProperties_missing node data props hp hne hmiss)
  · intro k
    simp [List.mem_filter, Option.isNone_iff_eq_none]

/-- C5 witness: a mapping holding only `memory_mb` is reported as
missing exactly `local_gb`, `cpus` and `cpu_arch`. -/
theorem C5_missing_keys_witness :
    validate ⟨"node-1".data, 1, [], []⟩
      [("properties".data, .dict [("memory_mb".data, .int 2048)])] =
      .error (.hardwareInspectionFailure (.serverMissingKeys
        (essentialPropertiesKeys.filter (fun k =>
          (dictGet [("memory_mb".data, PyVal.int 2048)] k).isNone)))) :=
  (C5_missing_keys_reported_together ⟨"node-1".data, 1, [], []⟩
    [("properties".data, .dict [("memory_mb".data, .int 2048)])]
    [("memory_mb".data, .int 2048)] rfl
    (List.cons_ne_nil _ _) (List.cons_ne_nil _ _)).1

/-- C10: the validator treats a `properties` or `macs` key bound to an
empty mapping exactly like an absent key: `if data.get(key):` is falsy
for both, so validation fails with the corresponding
`"... didn't return ... as the key with inspection."` message; in
particular an inspection result with zero discovered MACs always makes
the whole inspection fail, whatever `inspect_ports` holds. -/
theorem C10_empty_mapping_like_absent (node : Node) (data : List (Str × PyVal)) :
    ((dictGet data "properties".data = none ∨
        dictGet data "properties".data = some (.dict [])) →
      validate node data =
        .error (.hardwareInspectionFailure (.propertiesNotReturned node.uuid))) ∧
    (validateProperties node data = .ok () →
      (dictGet data "macs".data = none ∨ dictGet data "macs".data = some (.dict [])) →
      validate node data =
        .error (.hardwareInspectionFailure (.macsNotReturned node.uuid))) ∧
    (dictGet data "macs".data = some (.dict []) →
      ∃ e, validate node data = .error e) ∧
    (∀ env : Env, env.essentialProperties = .ok data →
      dictGet data "macs".data = some (.dict []) →
      ∃ e, (inspectHardware env node).1 = .error e) := by
  have hmacs : (dictGet data "macs".data = none ∨
      dictGet data "macs".data = some (.dict [])) →
      validateMacs node data =
        .error (.hardwareInspectionFailure (.macsNotReturned node.uuid)) := by
    intro h
    unfold validateMacs
    rcases h with h | h
    · rw [h]
    · rw [h]
      simp [pyTruthy]
  refine ⟨?_, ?_, ?_, ?_⟩
  · intro h
    exact validate_error_left node data _ (validateProperties_not_returned node data h)
  · intro hvp h
    rw [validate_ok_left node data hvp]
    exact hmacs h
  · intro h
    cases hvp : validateProperties node data with
    | error e => exact ⟨e, validate_error_left node data e hvp⟩
    | ok u =>
      obtain ⟨⟩ := u
      exact ⟨_, by rw [validate_ok_left node data hvp]; exact hmacs (Or.inr h)⟩
  · intro env henv h
    cases hps : env.powerState with
    | error e =>
      refine ⟨.iloOperationError (.inspectingHardware node.uuid) e, ?_⟩
      unfold inspectHardware
      rw [hps]
    | ok st =>
      obtain ⟨e, hve⟩ :
          ∃ e, validate node data = .error e := by
        cases hvp : validateProperties node data with
        | error e => exact ⟨e, validate_error_left node data e hvp⟩
        | ok u =>
          obtain ⟨⟩ := u
          exact ⟨_, by rw [validate_ok_left node data hvp]; exact hmacs (Or.inr h)⟩
      refine ⟨e, ?_⟩
      have hge : getEssentialProperties env node = .error e := by
        unfold getEssentialProperties
        rw [henv]
        simp only [hve]
        rfl
      unfold inspectHardware
      rw [hps, hge]

/-- C10 witness: valid properties with an empty MAC mapping fail with
the macs-not-returned message, and the whole workflow fails. -/
theorem C10_empty_mapping_witness :
    validate ⟨"node-1".data, 1, [], [("inspect_ports".data, "all".data)]⟩
      [("properties".data, .dict
         [("memory_mb".data, .int 2048), ("local_gb".data, .int 80),
          ("cpus".data, .int 2), ("cpu_arch".data, .str "x86_64".data)]),
       ("macs".data, .dict [])] =
      .error (.hardwareInspectionFailure (.macsNotReturned "node-1".data)) ∧
    ∃ e, (inspectHardware
      ⟨.ok .powerOn,
       .ok [("properties".data, .dict
              [("memory_mb".data, .int 2048), ("local_gb".data, .int 80),
               ("cpus".data, .int 2), ("cpu_arch".data, .str "x86_64".data)]),
            ("macs".data, .dict [])],
       .error "no capabilities".data, fun _ => .ok ()⟩
      ⟨"node-1".data, 1, [], [("inspect_ports".data, "all".data)]⟩).1 = .error e := by
  have h := C10_empty_mapping_like_absent
    ⟨"node-1".data, 1, [], [("inspect_ports".data, "all".data)]⟩
    [("properties".data, .dict
       [("memory_mb".data, .int 2048), ("local_gb".data, .int 80),
        ("cpus".data, .int 2), ("cpu_arch".data, .str "x86_64".data)]),
     ("macs".data, .dict [])]
  exact ⟨h.2.1 rfl (Or.inr rfl), h.2.2.2 _ rfl rfl⟩

/-! ## Claim C2: the port selection policy -/

/-- C2 counterexample: the label `Port 1` IS present in the discovered
mapping, bound to the empty string; `if mac_address:` is falsy, so the
policy reports the port as missing instead of returning its MAC, which
contradicts the claim for mappings that contain every requested
label. -/
theorem C2_counterexample :
    getMacsForDesiredPorts "node-1".data "1".data [("Port 1".data, .str [])] =
      .error (.hardwareInspectionFailure
        (.portsNotFound ["Port 1".data] "node-1".data)) ∧
    dictGet [("Port 1".data, PyVal.str [])] "Port 1".data = some (.str []) :=
  ⟨rfl, rfl⟩

theorem getMacsForDesiredPorts_numeric (uuid expr : Str)
    (macs : List (Str × PyVal)) (hall : lower expr ≠ "all".data) :
    getMacsForDesiredPorts uuid expr macs =
      (if (((splitOnChar ',' expr).map portLabel).filter
            (fun p => !truthyGet macs p)).isEmpty = true
       then .ok (((splitOnChar ',' expr).map portLabel).foldl (fun acc p =>
          match dictGet macs p with
          | some v => if pyTruthy v = true then dictInsert acc p v else acc
          | none => acc) [])
       else .error (.hardwareInspectionFailure (.portsNotFound
         (((splitOnChar ',' expr).map portLabel).filter
           (fun p => !truthyGet macs p)) uuid))) := by
  unfold getMacsForDesiredPorts
  rw [if_neg hall]

/-- C2 (amended): for a comma-separated numeric selection expression,
if every requested label `Port n` is present in the mapping WITH A
TRUTHY (non-empty) MAC, the policy returns exactly the requested MACs
and no others; if any requested label is absent or bound to a falsy
MAC, it raises `HardwareInspectionFailure` whose `non_existing_ports`
list is exactly the requested labels that are absent or falsy, and no
partial result is returned. -/
theorem C2_port_selection (uuid expr : Str) (macs : List (Str × PyVal))
    (hnum : ∀ t ∈ splitOnChar ',' expr, t ≠ [] ∧ ∀ c ∈ t, c.isDigit = true) :
    (((splitOnChar ',' expr).map portLabel).filter
        (fun p => !truthyGet macs p) = [] →
      ∃ r, getMacsForDesiredPorts uuid expr macs = .ok r ∧
        (∀ p ∈ (splitOnChar ',' expr).map portLabel,
          dictGet r p = dictGet macs p) ∧
        (∀ q, q ∉ (splitOnChar ',' expr).map portLabel → dictGet r q = none)) ∧
    (((splitOnChar ',' expr).map portLabel).filter
        (fun p => !truthyGet macs p) ≠ [] →
      getMacsForDesiredPorts uuid expr macs =
        .error (.hardwareInspectionFailure (.portsNotFound
          (((splitOnChar ',' expr).map portLabel).filter
            (fun p => !truthyGet macs p)) uuid))) ∧
    (∀ p, p ∈ ((splitOnChar ',' expr).map portLabel).filter
        (fun p => !truthyGet macs p) ↔
      (p ∈ (splitOnChar ',' expr).map portLabel ∧ truthyGet macs p = false)) := by
  have hall : lower expr ≠ "all".data := numeric_not_all expr hnum
  have heq := getMacsForDesiredPorts_numeric uuid expr macs hall
  refine ⟨?_, ?_, ?_⟩
  · intro hempty
    have hie : (((splitOnChar ',' expr).map portLabel).filter
        (fun p => !truthyGet macs p)).isEmpty = true := by
      rw [hempty]
      rfl
    rw [heq, if_pos hie]
    refine ⟨_, rfl, ?_, ?_⟩
    · intro p hp
      have ht : truthyGet macs p = true := by
        have h2 := List.filter_eq_nil_iff.mp hempty p hp
        simp at h2
        exact h2
      rw [dictGet_found_fold macs _ [] p, if_pos ⟨hp, ht⟩]
    · intro q hq
      rw [dictGet_found_fold macs _ [] q, if_neg (fun hcon => hq hcon.1)]
      rfl
  · intro hne
    have hie : (((splitOnChar ',' expr).map portLabel).filter
        (fun p => !truthyGet macs p)).isEmpty = false := by
      cases hmc : ((splitOnChar ',' expr).map portLabel).filter
          (fun p => !truthyGet macs p) with
      | nil => exact absurd hmc hne
      | cons a b => rfl
    rw [heq, if_neg (by rw [hie]; exact Bool.false_ne_true)]
  · intro p
    constructor
    · intro hp
      have h1 := List.mem_filter.mp hp
      refine ⟨h1.1, ?_⟩
      have h2 := h1.2
      simp at h2
      exact h2
    · intro ⟨h1, h2⟩
      exact List.mem_filter.mpr ⟨h1, by simp [h2]⟩

/-- The discovered MAC mapping used by the C2 witness. -/
def macsW : List (Str × PyVal) :=
  [("Port 1".data, .str "aa:aa:aa:aa:aa:aa".data),
   ("Port 2".data, .str "bb:bb:bb:bb:bb:bb".data),
   ("Port 3".data, .str "cc:cc:cc:cc:cc:cc".data)]

/-- C2 witness: requesting ports 1 and 2 of a three-port mapping
yields exactly their MACs. -/
theorem C2_port_selection_witness :
    ∃ r, getMacsForDesiredPorts "node-1".data "1,2".data macsW = .ok r ∧
      (∀ p ∈ (splitOnChar ',' "1,2".data).map portLabel,
        dictGet r p = dictGet macsW p) ∧
      (∀ q, q ∉ (splitOnChar ',' "1,2".data).map portLabel →
        dictGet r q = none) :=
  (C2_port_selection "node-1".data "1,2".data macsW (by decide)).1 rfl

/-! ## Claim C7: malformed existing capability strings -/

theorem mapM_option_forall {α β : Type} (f : α → Option β) (l : List α) :
    ∀ (out : List β), l.mapM f = some out → ∀ x ∈ l, ∃ y, f x = some y := by
  induction l with
  | nil =>
    intro out _ x hx
    simp at hx
  | cons a rest ih =>
    intro out h x hx
    rw [List.mapM_cons] at h
    cases ha : f a with
    | none =>
      rw [ha] at h
      exact absurd h (by simp)
    | some z =>
      rw [ha] at h
      cases hrest : rest.mapM f with
      | none =>
        rw [hrest] at h
        exact absurd h (by simp)
      | some zs =>
        rcases List.mem_cons.mp hx with hx1 | hx1
        · exact ⟨z, hx1 ▸ ha⟩
        · exact ih zs hrest x hx1

theorem parseCapabilities_eq_none (s : Str)
    (hmal : ∃ t ∈ splitOnChar ',' s, ':' ∉ t) :
    parseCapabilities s = none := by
  unfold parseCapabilities
  obtain ⟨t, ht, hcolon⟩ := hmal
  cases hm : (splitOnChar ',' s).mapM (splitFirst ':') with
  | none => rfl
  | some out =>
    obtain ⟨y, hy⟩ := mapM_option_forall (splitFirst ':') (splitOnChar ',' s) out hm t ht
    rw [(splitFirst_eq_none_iff ':' t).mpr hcolon] at hy
    exact absurd hy (by simp)

theorem pyTruthy_str_of_ne_nil (s : Str) (hne : s ≠ []) :
    pyTruthy (.str s) = true := by
  cases s with
  | nil => exact absurd rfl hne
  | cons a b => rfl

theorem updateCapabilitiesCore_malformed (uuid s : Str) (newCaps : PyVal)
    (hne : s ≠ []) (hmal : ∃ t ∈ splitOnChar ',' s, ':' ∉ t) :
    updateCapabilitiesCore uuid (some (.str s)) newCaps =
      .error (.invalidParameterValue (.invalidCapabilitiesString uuid s)) := by
  unfold updateCapabilitiesCore
  simp only [pyTruthy_str_of_ne_nil s hne, parseCapabilities_eq_none s hmal]
  rfl

theorem getEssentialProperties_ok (env : Env) (node : Node)
    (data : List (Str × PyVal)) (henv : env.essentialProperties = .ok data)
    (hval : validate node data = .ok ()) :
    getEssentialProperties env node = .ok data := by
  unfold getEssentialProperties
  rw [henv]
  simp only [hval]
  rfl

theorem capabilityPhase_update_error (env : Env) (node1 : Node) (capv : PyVal)
    (validCap : List (Str × PyVal)) (e : IErr)
    (hcap : env.serverCapabilities = .ok capv)
    (ht : pyTruthy capv = true)
    (hcsd : createSupportedCapabilitiesDict capv = .ok validCap)
    (hupd : updateCapabilities node1 (.dict validCap) = .error e) :
    capabilityPhase env node1 = .error e := by
  unfold capabilityPhase getCapabilities
  simp [hcap, ht, hcsd, hupd]

theorem inspectHardware_capability_error (env : Env) (node : Node)
    (data props inspected : List (Str × PyVal)) (e : IErr) (st : PowerState)
    (hps : env.powerState = .ok st)
    (henv : env.essentialProperties = .ok data)
    (hval : validate node data = .ok ())
    (hprops : dictGet data "properties".data = some (.dict props))
    (hpick : pickEssential props = .ok inspected)
    (hcp : capabilityPhase env
      { node with properties := dictUpdate node.properties inspected } = .error e) :
    inspectHardware env node = (.error e, [Event.capabilityQuery]) := by
  unfold inspectHardware
  simp only [hps, getEssentialProperties_ok env node data henv hval, hprops,
    hpick, hcp]

/-- C7: a malformed existing capability string (some comma-separated
token without a colon) makes `_update_capabilities` raise
`InvalidParameterValue` (the spec's `InvalidConfiguration` class for
operator-authored data), whatever the discovered capabilities are; and
in the workflow this failure occurs before `task.node.save()` is ever
reached, so the stored node (capability string included) is not
modified: the run ends in that error with no save event. -/
theorem C7_malformed_existing_capabilities (uuid s : Str) (newCaps : PyVal)
    (hne : s ≠ []) (hmal : ∃ t ∈ splitOnChar ',' s, ':' ∉ t) :
    updateCapabilitiesCore uuid (some (.str s)) newCaps =
      .error (.invalidParameterValue (.invalidCapabilitiesString uuid s)) ∧
    (∀ (env : Env) (node : Node)
        (data props inspected validCap : List (Str × PyVal)) (capv : PyVal)
        (st : PowerState),
      env.powerState = .ok st →
      env.essentialProperties = .ok data →
      validate node data = .ok () →
      dictGet data "properties".data = some (.dict props) →
      pickEssential props = .ok inspected →
      env.serverCapabilities = .ok capv →
      pyTruthy capv = true →
      createSupportedCapabilitiesDict capv = .ok validCap →
      dictGet (dictUpdate node.properties inspected) "capabilities".data =
        some (.str s) →
      inspectHardware env node =
        (.error (.invalidParameterValue (.invalidCapabilitiesString node.uuid s)),
         [Event.capabilityQuery])) := by
  constructor
  · exact updateCapabilitiesCore_malformed uuid s newCaps hne hmal
  · intro env node data props inspected validCap capv st hps henv hval hprops
      hpick hcap ht hcsd hlook
    refine inspectHardware_capability_error env node data props inspected _ st
      hps henv hval hprops hpick ?_
    refine capabilityPhase_update_error env _ capv validCap _ hcap ht hcsd ?_
    unfold updateCapabilities
    have hprop1 : ({ node with properties := dictUpdate node.properties inspected } :
        Node).properties = dictUpdate node.properties inspected := rfl
    rw [hprop1, hlook]
    exact updateCapabilitiesCore_malformed node.uuid s (.dict validCap) hne hmal

/-- The essential-properties payload used by several witnesses. -/
def propsFull : List (Str × PyVal) :=
  [("memory_mb".data, .int 2048), ("local_gb".data, .int 80),
   ("cpus".data, .int 2), ("cpu_arch".data, .str "x86_64".data)]

/-- A well-formed controller inspection result used by witnesses. -/
def dataFull : List (Str × PyVal) :=
  [("properties".data, .dict propsFull),
   ("macs".data, .dict [("Port 1".data, .str "aa:aa:aa:aa:aa:aa".data)])]

/-- C7 witness: a node whose operator wrote `boot_mode` (no colon) as
its capability string fails the whole inspection with
`InvalidParameterValue` and never saves. -/
theorem C7_malformed_existing_capabilities_witness :
    inspectHardware
      ⟨.ok .powerOn, .ok dataFull, .ok (.dict [("BootMode".data, .str "UEFI".data)]),
       fun _ => .ok ()⟩
      ⟨"node-1".data, 1, [("capabilities".data, .str "boot_mode".data)],
       [("inspect_ports".data, "all".data)]⟩ =
      (.error (.invalidParameterValue
        (.invalidCapabilitiesString "node-1".data "boot_mode".data)),
       [Event.capabilityQuery]) :=
  (C7_malformed_existing_capabilities "node-1".data "boot_mode".data (.dict [])
    (List.cons_ne_nil _ _) ⟨"boot_mode".data, by decide, by decide⟩).2
    _ _ dataFull propsFull propsFull [("BootMode".data, .str "UEFI".data)]
    (.dict [("BootMode".data, .str "UEFI".data)]) .powerOn
    rfl rfl rfl rfl rfl rfl rfl rfl rfl

/-! ## Claims C3 and C6: the capability merger as a map -/

theorem updateCapabilitiesCore_parsed (uuid s : Str) (pm : List (Str × Str))
    (nd : List (Str × PyVal)) (hs : parseCapabilities s = some pm) :
    updateCapabilitiesCore uuid (some (.str s)) (.dict nd) =
      .ok (serializeCapabilities
        (dictUpdate (pm.map (fun kv => (kv.1, PyVal.str kv.2))) nd)) := by
  have hne : s ≠ [] := by
    intro h
    rw [h] at hs
    exact Option.noConfusion hs
  unfold updateCapabilitiesCore
  simp only [pyTruthy_str_of_ne_nil s hne, hs]
  rfl

theorem updateCapabilitiesCore_absent (uuid : Str) (nd : List (Str × PyVal)) :
    updateCapabilitiesCore uuid none (.dict nd) =
      .ok (serializeCapabilities (dictUpdate [] nd)) := rfl

theorem updateCapabilitiesCore_empty_str (uuid : Str) (nd : List (Str × PyVal)) :
    updateCapabilitiesCore uuid (some (.str [])) (.dict nd) =
      .ok (serializeCapabilities (dictUpdate [] nd)) := rfl

/-- The entries of the merged capability dict satisfy the conditions
for a faithful re-parse, given a parseable existing string and a
separator-free discovered mapping. -/
theorem merged_wf (s : Str) (pm : List (Str × Str)) (d : List (Str × PyVal))
    (hs : parseCapabilities s = some pm)
    (hd : ∀ kv ∈ d, ',' ∉ kv.1 ∧ ':' ∉ kv.1 ∧ ',' ∉ pyStr kv.2) :
    ∀ kv ∈ dictUpdate (pm.map (fun kv => (kv.1, PyVal.str kv.2))) d,
      ',' ∉ kv.1 ∧ ':' ∉ kv.1 ∧ ',' ∉ pyStr kv.2 := by
  intro kv hkv
  rcases mem_dictUpdate d _ kv hkv with h | h
  · rw [List.mem_map] at h
    obtain ⟨kv0, hkv0, rfl⟩ := h
    obtain ⟨h1, h2, h3⟩ := parseCapabilities_entry_wf s pm hs kv0 hkv0
    exact ⟨h1, h2, h3⟩
  · exact hd kv h

theorem merged_get_of_mem {α : Type} (base d : List (Str × α))
    (hdnodup : (dictKeys d).Nodup) (k : Str) (hk : k ∈ dictKeys d) :
    dictGet (dictUpdate base d) k = dictGet d k := by
  rw [dictGet_dictUpdate, lastGet_eq_dictGet_of_nodup d k hdnodup]
  cases hdk : dictGet d k with
  | none => exact absurd ((dictGet_eq_none_iff d k).mp hdk) (by simp [hk])
  | some v => rfl

theorem merged_get_of_not_mem {α : Type} (base d : List (Str × α))
    (k : Str) (hk : k ∉ dictKeys d) :
    dictGet (dictUpdate base d) k = dictGet base k := by
  rw [dictGet_dictUpdate, (lastGet_eq_none_iff d k).mpr hk]

/-- C3 counterexample: with existing `custom:foo` and the discovered
mapping `{BootMode: "a,custom:EVIL"}` (whose key `custom` is NOT in
the discovered mapping), the serialized output re-read as a map binds
`custom` to `EVIL`, not to its original `foo` — the unescaped comma in
the discovered value smuggles in a new binding for an operator key. -/
theorem C3_counterexample :
    updateCapabilitiesCore "node-1".data (some (.str "custom:foo".data))
      (.dict [("BootMode".data, .str "a,custom:EVIL".data)]) =
      .ok "custom:foo,BootMode:a,custom:EVIL".data ∧
    parseCapabilities "custom:foo".data = some [("custom".data, "foo".data)] ∧
    "custom".data ∉ dictKeys [("BootMode".data, PyVal.str "a,custom:EVIL".data)] ∧
    parseCapabilities "custom:foo,BootMode:a,custom:EVIL".data =
      some [("custom".data, "EVIL".data), ("BootMode".data, "a".data)] ∧
    "EVIL".data ≠ "foo".data := by
  refine ⟨rfl, rfl, ?_, rfl, ?_⟩
  · decide
  · decide

/-- Core merge-and-reparse fact shared by the map-semantics claims:
for a parseable existing string and a separator-free discovered dict,
the merge succeeds and the re-parsed output keeps all other keys and
overwrites all discovered keys. -/
theorem mergeParsed_map_spec (uuid s : Str) (pm : List (Str × Str))
    (d : List (Str × PyVal))
    (hs : parseCapabilities s = some pm)
    (hd : ∀ kv ∈ d, ',' ∉ kv.1 ∧ ':' ∉ kv.1 ∧ ',' ∉ pyStr kv.2)
    (hdnodup : (dictKeys d).Nodup) :
    ∃ out m, updateCapabilitiesCore uuid (some (.str s)) (.dict d) = .ok out ∧
      parseCapabilities out = some m ∧
      (∀ k, k ∉ dictKeys d → dictGet m k = dictGet pm k) ∧
      (∀ k, k ∈ dictKeys d → dictGet m k = (dictGet d k).map pyStr) := by
  have hpmne : pm ≠ [] := parseCapabilities_ne_nil s pm hs
  have hbase_ne : pm.map (fun kv => (kv.1, PyVal.str kv.2)) ≠ [] := by
    intro h
    exact hpmne (List.map_eq_nil_iff.mp h)
  have hmdne : dictUpdate (pm.map (fun kv => (kv.1, PyVal.str kv.2))) d ≠ [] :=
    dictUpdate_ne_nil d _ hbase_ne
  have hmdnodup : (dictKeys
      (dictUpdate (pm.map (fun kv => (kv.1, PyVal.str kv.2))) d)).Nodup := by
    refine dictKeys_dictUpdate_nodup d _ ?_
    rw [dictKeys_map_val]
    exact parseCapabilities_keys_nodup s pm hs
  have hparse := parseCapabilities_serializeCapabilities
    (dictUpdate (pm.map (fun kv => (kv.1, PyVal.str kv.2))) d)
    hmdne (merged_wf s pm d hs hd) hmdnodup
  refine ⟨_, _, updateCapabilitiesCore_parsed uuid s pm d hs, hparse, ?_, ?_⟩
  · intro k hk
    rw [dictGet_map_val, merged_get_of_not_mem _ d k hk, dictGet_map_val]
    cases dictGet pm k with
    | none => rfl
    | some v => rfl
  · intro k hkd
    rw [dictGet_map_val, merged_get_of_mem _ d hdnodup k hkd]

/-- C3 (amended): for every parseable existing capability string and
every discovered mapping whose keys contain neither comma nor colon
and whose rendered values contain no comma (no escaping exists in the
serialization), the merger output re-read as a map keeps every key not
in the discovered mapping at its original parsed value and maps every
key of both to the newly discovered value. -/
theorem C3_capability_merge (uuid s : Str) (pm : List (Str × Str))
    (d : List (Str × PyVal))
    (hs : parseCapabilities s = some pm)
    (hd : ∀ kv ∈ d, ',' ∉ kv.1 ∧ ':' ∉ kv.1 ∧ ',' ∉ pyStr kv.2)
    (hdnodup : (dictKeys d).Nodup) :
    ∃ out m, updateCapabilitiesCore uuid (some (.str s)) (.dict d) = .ok out ∧
      parseCapabilities out = some m ∧
      (∀ k, k ∉ dictKeys d → dictGet m k = dictGet pm k) ∧
      (∀ k, k ∈ dictKeys pm → k ∈ dictKeys d →
        dictGet m k = (dictGet d k).map pyStr) := by
  obtain ⟨out, m, h1, h2, h3, h4⟩ := mergeParsed_map_spec uuid s pm d hs hd hdnodup
  exact ⟨out, m, h1, h2, h3, fun k _ hkd => h4 k hkd⟩

/-- C3 witness: the spec example — existing `boot_mode:bios,custom:foo`
and discovered `{BootMode: UEFI}` keep `custom` at `foo` and bind
`BootMode` to `UEFI`. -/
theorem C3_capability_merge_witness :
    ∃ out m, updateCapabilitiesCore "node-1".data
        (some (.str "boot_mode:bios,custom:foo".data))
        (.dict [("BootMode".data, .str "UEFI".data)]) = .ok out ∧
      parseCapabilities out = some m ∧
      (∀ k, k ∉ dictKeys [("BootMode".data, PyVal.str "UEFI".data)] →
        dictGet m k =
          dictGet [("boot_mode".data, "bios".data), ("custom".data, "foo".data)] k) ∧
      (∀ k, k ∈ dictKeys [("boot_mode".data, "bios".data), ("custom".data, "foo".data)] →
        k ∈ dictKeys [("BootMode".data, PyVal.str "UEFI".data)] →
        dictGet m k =
          (dictGet [("BootMode".data, PyVal.str "UEFI".data)] k).map pyStr) :=
  C3_capability_merge "node-1".data "boot_mode:bios,custom:foo".data
    [("boot_mode".data, "bios".data), ("custom".data, "foo".data)]
    [("BootMode".data, .str "UEFI".data)]
    rfl
    (by
      intro kv hkv
      rcases List.mem_singleton.mp hkv with rfl
      exact ⟨by decide, by decide, by decide⟩)
    (by decide)

/-- How the merger itself reads back a stored capability string: a
falsy (empty) string is the empty dict, anything else goes through the
comma/colon parse. -/
def capsReading (s : Str) : Option (List (Str × Str)) :=
  if s = [] then some [] else parseCapabilities s

/-- C6 counterexample: merging `{nic_capacity: "1Gb,10Gb"}` into an
absent capability string once yields `nic_capacity:1Gb,10Gb`; merging
the same mapping a second time fails with `InvalidParameterValue`
because the stored string no longer parses (the token `10Gb` has no
colon), so merging twice does not yield the same string as merging
once — it does not yield a string at all. -/
theorem C6_counterexample :
    updateCapabilitiesCore "node-1".data none
      (.dict [("nic_capacity".data, .str "1Gb,10Gb".data)]) =
      .ok "nic_capacity:1Gb,10Gb".data ∧
    updateCapabilitiesCore "node-1".data (some (.str "nic_capacity:1Gb,10Gb".data))
      (.dict [("nic_capacity".data, .str "1Gb,10Gb".data)]) =
      .error (.invalidParameterValue
        (.invalidCapabilitiesString "node-1".data "nic_capacity:1Gb,10Gb".data)) :=
  ⟨rfl, rfl⟩

/-- C6 (amended): for discovered mappings whose keys contain neither
comma nor colon and whose rendered values contain no comma, merging is
idempotent as a map: the first merge yields `s1`, re-merging the same
mapping into `s1` succeeds with `s2`, and `s1` and `s2` read back as
the same map. -/
theorem C6_merge_idempotent (uuid : Str) (c : Option Str) (d : List (Str × PyVal))
    (hc : ∀ s, c = some s → s ≠ [] → (parseCapabilities s).isSome)
    (hd : ∀ kv ∈ d, ',' ∉ kv.1 ∧ ':' ∉ kv.1 ∧ ',' ∉ pyStr kv.2)
    (hdnodup : (dictKeys d).Nodup) :
    ∃ s1 s2 m1 m2,
      updateCapabilitiesCore uuid (c.map PyVal.str) (.dict d) = .ok s1 ∧
      updateCapabilitiesCore uuid (some (.str s1)) (.dict d) = .ok s2 ∧
      capsReading s1 = some m1 ∧ capsReading s2 = some m2 ∧
      (∀ k, dictGet m2 k = dictGet m1 k) := by
  obtain ⟨base, hbase_eq, hbase_wf, hbase_nodup⟩ :
      ∃ base, updateCapabilitiesCore uuid (c.map PyVal.str) (.dict d) =
          .ok (serializeCapabilities (dictUpdate base d)) ∧
        (∀ kv ∈ base, ',' ∉ kv.1 ∧ ':' ∉ kv.1 ∧ ',' ∉ pyStr kv.2) ∧
        (dictKeys base).Nodup := by
    cases c with
    | none =>
      exact ⟨[], updateCapabilitiesCore_absent uuid d, by simp, by simp⟩
    | some s =>
      cases s with
      | nil =>
        exact ⟨[], updateCapabilitiesCore_empty_str uuid d, by simp, by simp⟩
      | cons ch rest =>
        have hsne : (ch :: rest : Str) ≠ [] := by simp
        obtain ⟨pm, hpm⟩ := Option.isSome_iff_exists.mp (hc _ rfl hsne)
        refine ⟨pm.map (fun kv => (kv.1, PyVal.str kv.2)), ?_, ?_, ?_⟩
        · exact updateCapabilitiesCore_parsed uuid _ pm d hpm
        · intro kv hkv
          rw [List.mem_map] at hkv
          obtain ⟨kv0, hkv0, rfl⟩ := hkv
          obtain ⟨h1, h2, h3⟩ := parseCapabilities_entry_wf _ pm hpm kv0 hkv0
          exact ⟨h1, h2, h3⟩
        · rw [dictKeys_map_val]
          exact parseCapabilities_keys_nodup _ pm hpm
  by_cases hmd1nil : dictUpdate base d = []
  · have hs1 : serializeCapabilities (dictUpdate base d) = [] := by
      rw [hmd1nil]
      rfl
    have hd_nil : d = [] := by
      cases d with
      | nil => rfl
      | cons p ps =>
        have hbase_nil : base = [] := by
          by_contra hb
          exact dictUpdate_ne_nil (p :: ps) base hb hmd1nil
        rw [hbase_nil] at hmd1nil
        exact absurd hmd1nil (dictOfPairs_ne_nil p ps)
    refine ⟨[], [], [], [], ?_, ?_, rfl, rfl, fun k => rfl⟩
    · rw [hbase_eq, hs1]
    · rw [hd_nil]
      exact updateCapabilitiesCore_empty_str uuid []
  · have hmd1wf : ∀ kv ∈ dictUpdate base d,
        ',' ∉ kv.1 ∧ ':' ∉ kv.1 ∧ ',' ∉ pyStr kv.2 := by
      intro kv hkv
      rcases mem_dictUpdate d base kv hkv with h | h
      · exact hbase_wf kv h
      · exact hd kv h
    have hmd1nodup := dictKeys_dictUpdate_nodup d base hbase_nodup
    have hps1 : parseCapabilities (serializeCapabilities (dictUpdate base d)) =
        some ((dictUpdate base d).map (fun kv => (kv.1, pyStr kv.2))) :=
      parseCapabilities_serializeCapabilities _ hmd1nil hmd1wf hmd1nodup
    have hs1ne : serializeCapabilities (dictUpdate base d) ≠ [] := by
      intro h
      exact hmd1nil ((serializeCapabilities_eq_nil_iff _).mp h)
    have hm1d : ∀ k, k ∈ dictKeys d →
        dictGet ((dictUpdate base d).map (fun kv => (kv.1, pyStr kv.2))) k =
          (dictGet d k).map pyStr := by
      intro k hk
      rw [dictGet_map_val, merged_get_of_mem base d hdnodup k hk]
    obtain ⟨s2, m2, hcore2, hparse2, hA, hB⟩ :=
      mergeParsed_map_spec uuid _ _ d hps1 hd hdnodup
    have hs2ne : s2 ≠ [] := by
      intro h
      rw [h] at hparse2
      exact Option.noConfusion hparse2
    refine ⟨serializeCapabilities (dictUpdate base d), s2,
      (dictUpdate base d).map (fun kv => (kv.1, pyStr kv.2)), m2,
      hbase_eq, hcore2, ?_, ?_, ?_⟩
    · unfold capsReading
      rw [if_neg hs1ne]
      exact hps1
    · unfold capsReading
      rw [if_neg hs2ne]
      exact hparse2
    · intro k
      by_cases hk : k ∈ dictKeys d
      · rw [hB k hk, hm1d k hk]
      · exact hA k hk

/-- C6 witness: existing `boot_mode:bios` and discovered
`{BootMode: UEFI}`, merged twice, read back as the same map. -/
theorem C6_merge_idempotent_witness :
    ∃ s1 s2 m1 m2,
      updateCapabilitiesCore "node-1".data
        ((some "boot_mode:bios".data).map PyVal.str)
        (.dict [("BootMode".data, .str "UEFI".data)]) = .ok s1 ∧
      updateCapabilitiesCore "node-1".data (some (.str s1))
        (.dict [("BootMode".data, .str "UEFI".data)]) = .ok s2 ∧
      capsReading s1 = some m1 ∧ capsReading s2 = some m2 ∧
      (∀ k, dictGet m2 k = dictGet m1 k) :=
  C6_merge_idempotent "node-1".data (some "boot_mode:bios".data)
    [("BootMode".data, .str "UEFI".data)]
    (by
      intro s hs hsne
      obtain rfl := Option.some_inj.mp hs
      decide)
    (by
      intro kv hkv
      rcases List.mem_singleton.mp hkv with rfl
      exact ⟨by decide, by decide, by decide⟩)
    (by decide)

/-! ## Claim C4: non-fatal and fatal capability outcomes -/

/-- Python `isinstance(v, dict)`. -/
def isDictB : PyVal → Bool
  | .dict _ => true
  | _ => false

/-- A string capabilities result always filters to the empty dict: no
character of the string equals a multi-character capability name. -/
theorem createSupportedCapabilitiesDict_str (g : Str) :
    createSupportedCapabilitiesDict (.str g) = .ok [] := by
  have hcond : (capabilitiesKeys.any fun k =>
      g.any fun c => decide (([c] : Str) = k)) = false := by
    rw [List.any_eq_false]
    intro k hk
    intro hcon
    rw [List.any_eq_true] at hcon
    obtain ⟨c, _, hc⟩ := hcon
    have he : ([c] : Str) = k := of_decide_eq_true hc
    have hlen : 2 ≤ k.length :=
      (by decide : ∀ k ∈ capabilitiesKeys, 2 ≤ k.length) k hk
    have hone : ([c] : Str).length = k.length := by rw [he]
    simp at hone
    omega
  show (if (capabilitiesKeys.any fun k =>
        g.any fun c => decide (([c] : Str) = k)) = true then
      (Except.error (IErr.pyError PyErr.attributeError) :
        Except IErr (List (Str × PyVal)))
    else Except.ok []) = Except.ok []
  rw [hcond]
  rfl

theorem updateCapabilitiesCore_not_dict (uuid : Str) (newCaps : PyVal)
    (hnd : isDictB newCaps = false) :
    updateCapabilitiesCore uuid none newCaps =
      .error (.hardwareInspectionFailure (.capabilitiesNotDict uuid newCaps)) := by
  cases newCaps with
  | dict d => exact absurd hnd (by simp [isDictB])
  | none => rfl
  | int n => rfl
  | str s => rfl
  | list xs => rfl

theorem capabilityPhase_swallows_error (env : Env) (node1 : Node) (err : Str)
    (hcap : env.serverCapabilities = .error err) :
    capabilityPhase env node1 = .ok node1 := by
  unfold capabilityPhase getCapabilities
  rw [hcap]

theorem capabilityPhase_str (env : Env) (node1 : Node) (g : Str)
    (hcap : env.serverCapabilities = .ok (.str g)) (hg : g ≠ [])
    (hnocaps : dictGet node1.properties "capabilities".data = none) :
    capabilityPhase env node1 = .ok node1 := by
  have hupd : updateCapabilities node1 (.dict []) = .ok [] := by
    unfold updateCapabilities
    rw [hnocaps]
    rfl
  unfold capabilityPhase getCapabilities
  simp only [hcap, pyTruthy_str_of_ne_nil g hg,
    createSupportedCapabilitiesDict_str g, hupd]
  rfl

theorem portPhase_none (env : Env) (node2 : Node) (result : List (Str × PyVal))
    (ip : Str) (hip : dictGet node2.driver_info "inspect_ports".data = some ip)
    (hnone : lower ip = "none".data) :
    portPhase env node2 result = (.ok (), []) := by
  unfold portPhase
  simp only [hip]
  rw [if_pos hnone]

theorem inspectHardware_ok_shape (env : Env) (node : Node)
    (data props inspected : List (Str × PyVal)) (node2 : Node) (st : PowerState)
    (portEvents : List Event)
    (hps : env.powerState = .ok st)
    (henv : env.essentialProperties = .ok data)
    (hval : validate node data = .ok ())
    (hprops : dictGet data "properties".data = some (.dict props))
    (hpick : pickEssential props = .ok inspected)
    (hcp : capabilityPhase env
      { node with properties := dictUpdate node.properties inspected } = .ok node2)
    (hpp : portPhase env node2 data = (.ok (), portEvents)) :
    inspectHardware env node =
      (.ok .manageable,
       .capabilityQuery :: .save node2.properties :: portEvents) := by
  unfold inspectHardware
  simp only [hps, getEssentialProperties_ok env node data henv hval, hprops,
    hpick, hcp, hpp]

theorem pickFold_get_not_mem (props : List (Str × PyVal)) (keys : List Str) :
    ∀ (acc out : List (Str × PyVal)),
      (keys.foldlM (fun acc k =>
        match dictGet props k with
        | some v => pure (dictInsert acc k v)
        | none => throw (.pyError .keyError)) acc : Except IErr _) = .ok out →
      ∀ q, q ∉ keys → dictGet out q = dictGet acc q := by
  induction keys with
  | nil =>
    intro acc out h q _
    have h' : Except.ok acc = Except.ok out := h
    injection h' with h''
    rw [h'']
  | cons k rest ih =>
    intro acc out h q hq
    simp only [List.foldlM_cons] at h
    cases hm : dictGet props k with
    | none =>
      rw [hm] at h
      have h' : (Except.error (.pyError .keyError) :
          Except IErr (List (Str × PyVal))) = .ok out := h
      exact Except.noConfusion h'
    | some v =>
      rw [hm] at h
      have h' : (rest.foldlM (fun acc k =>
          match dictGet props k with
          | some v => pure (dictInsert acc k v)
          | none => throw (.pyError .keyError)) (dictInsert acc k v) :
            Except IErr _) = .ok out := h
      rw [ih (dictInsert acc k v) out h' q
        (fun hq' => hq (List.mem_cons_of_mem k hq'))]
      rw [dictGet_dictInsert,
        if_neg (fun he => hq (by rw [← he]; exact List.mem_cons_self k rest))]

theorem pickEssential_get_not_mem (props inspected : List (Str × PyVal))
    (h : pickEssential props = .ok inspected) (k : Str)
    (hk : k ∉ essentialPropertiesKeys) : dictGet inspected k = none := by
  rw [pickFold_get_not_mem props essentialPropertiesKeys [] inspected h k hk]
  rfl

/-- C4 (amended): a controller error during the capability query is
swallowed: the workflow still completes with `MANAGEABLE`, a single
save whose `capabilities` entry is unchanged from the node's original
properties; a NON-MAPPING (string) capabilities result does NOT fail
the workflow either — the allow-list intersection of a string is empty,
the merge degenerates to re-serializing the existing capabilities, and
the run completes with `MANAGEABLE`; the not-a-mapping fatal error of
the claim exists only inside `_update_capabilities` when invoked with a
non-dict directly, a call the workflow never makes. -/
theorem C4_capability_errors (env : Env) (node : Node)
    (data props inspected : List (Str × PyVal)) (st : PowerState) (ip : Str)
    (hps : env.powerState = .ok st)
    (henv : env.essentialProperties = .ok data)
    (hval : validate node data = .ok ())
    (hprops : dictGet data "properties".data = some (.dict props))
    (hpick : pickEssential props = .ok inspected)
    (hip : dictGet node.driver_info "inspect_ports".data = some ip)
    (hnone : lower ip = "none".data) :
    (∀ err, env.serverCapabilities = .error err →
      inspectHardware env node =
        (.ok .manageable,
         [Event.capabilityQuery, Event.save (dictUpdate node.properties inspected)]) ∧
      dictGet (dictUpdate node.properties inspected) "capabilities".data =
        dictGet node.properties "capabilities".data) ∧
    (∀ g, env.serverCapabilities = .ok (.str g) → g ≠ [] →
      dictGet node.properties "capabilities".data = none →
      inspectHardware env node =
        (.ok .manageable,
         [Event.capabilityQuery, Event.save (dictUpdate node.properties inspected)])) ∧
    (∀ uuid ncaps, isDictB ncaps = false →
      updateCapabilitiesCore uuid none ncaps =
        .error (.hardwareInspectionFailure (.capabilitiesNotDict uuid ncaps))) := by
  have hcapsnm : "capabilities".data ∉ dictKeys inspected := by
    rw [← dictGet_eq_none_iff]
    exact pickEssential_get_not_mem props inspected hpick _ (by decide)
  refine ⟨?_, ?_, ?_⟩
  · intro err hcap
    constructor
    · exact inspectHardware_ok_shape env node data props inspected _ st []
        hps henv hval hprops hpick
        (capabilityPhase_swallows_error env _ err hcap)
        (portPhase_none env _ data ip hip hnone)
    · exact merged_get_of_not_mem node.properties inspected _ hcapsnm
  · intro g hcap hg hnocaps
    refine inspectHardware_ok_shape env node data props inspected _ st []
      hps henv hval hprops hpick
      (capabilityPhase_str env _ g hcap hg ?_)
      (portPhase_none env _ data ip hip hnone)
    show dictGet (dictUpdate node.properties inspected) "capabilities".data = none
    rw [merged_get_of_not_mem node.properties inspected _ hcapsnm]
    exact hnocaps
  · intro uuid ncaps hnd
    exact updateCapabilitiesCore_not_dict uuid ncaps hnd

/-- C4 counterexample: the controller returns the non-mapping string
`garbage` as its capabilities; the claim says the workflow must fail
fatally, but the run completes with `MANAGEABLE` (and a save). -/
theorem C4_counterexample :
    inspectHardware
      ⟨.ok .powerOn, .ok dataFull, .ok (.str "garbage".data), fun _ => .ok ()⟩
      ⟨"node-1".data, 1, [], [("inspect_ports".data, "none".data)]⟩ =
      (.ok .manageable, [Event.capabilityQuery, Event.save propsFull]) ∧
    isDictB (.str "garbage".data) = false :=
  ⟨rfl, rfl⟩

/-- C4 witness: a controller error during the capability query leaves
the run at `MANAGEABLE` with one save and the capabilities entry
unchanged (absent before, absent in the saved properties). -/
theorem C4_capability_errors_witness :
    inspectHardware
      ⟨.ok .powerOn, .ok dataFull, .error "ribcl error".data, fun _ => .ok ()⟩
      ⟨"node-1".data, 1, [], [("inspect_ports".data, "none".data)]⟩ =
      (.ok .manageable,
       [Event.capabilityQuery,
        Event.save (dictUpdate ([] : List (Str × PyVal)) propsFull)]) ∧
    dictGet (dictUpdate ([] : List (Str × PyVal)) propsFull) "capabilities".data =
      dictGet ([] : List (Str × PyVal)) "capabilities".data :=
  (C4_capability_errors
    ⟨.ok .powerOn, .ok dataFull, .error "ribcl error".data, fun _ => .ok ()⟩
    ⟨"node-1".data, 1, [], [("inspect_ports".data, "none".data)]⟩
    dataFull propsFull propsFull .powerOn "none".data
    rfl rfl rfl rfl rfl rfl rfl).1 "ribcl error".data rfl

/-! ## Claim C1: persistence never precedes the capability query -/

/-- Whether an event is the capability query. -/
def Event.isCapabilityQuery : Event → Bool
  | .capabilityQuery => true
  | _ => false

/-- Whether an event persists the node. -/
def Event.isSave : Event → Bool
  | .save _ => true
  | _ => false

theorem createPortsLoop_no_save (pc : PyVal → Except StoreErr Unit) (nid : Int)
    (vs : List PyVal) :
    ((createPortsLoop pc nid vs).2.all (fun e => !e.isSave)) = true := by
  induction vs with
  | nil => rfl
  | cons v rest ih =>
    unfold createPortsLoop
    cases hpc : pc v with
    | ok u =>
      obtain ⟨⟩ := u
      show (!(Event.portCreated v nid).isSave &&
        ((createPortsLoop pc nid rest).2.all (fun e => !e.isSave))) = true
      rw [ih]
      rfl
    | error se =>
      cases se with
      | macAlreadyExists => exact ih
      | dbFailure e => rfl

theorem portPhase_no_save (env : Env) (node2 : Node)
    (result : List (Str × PyVal)) :
    ((portPhase env node2 result).2.all (fun e => !e.isSave)) = true := by
  unfold portPhase
  split
  · rfl
  · split
    · rfl
    · split
      · split
        · rfl
        · split
          · rfl
          · exact createPortsLoop_no_save env.createPort _ _
      · rfl
      · rfl

theorem inspectHardware_trace_shape (env : Env) (node : Node) :
    (inspectHardware env node).2 = [] ∨
    ∃ rest, (inspectHardware env node).2 = Event.capabilityQuery :: rest := by
  unfold inspectHardware
  repeat' split
  all_goals first
    | (left; rfl)
    | (right; exact ⟨_, rfl⟩)

theorem inspectHardware_ok_inv (env : Env) (node : Node) (fs : FinalState)
    (h : (inspectHardware env node).1 = .ok fs) :
    ∃ (data props inspected : List (Str × PyVal)) (node2 : Node)
      (portEvents : List Event) (st : PowerState),
      env.powerState = .ok st ∧
      getEssentialProperties env node = .ok data ∧
      dictGet data "properties".data = some (.dict props) ∧
      pickEssential props = .ok inspected ∧
      capabilityPhase env
        { node with properties := dictUpdate node.properties inspected } = .ok node2 ∧
      portPhase env node2 data = (.ok (), portEvents) ∧
      inspectHardware env node =
        (.ok .manageable,
         .capabilityQuery :: .save node2.properties :: portEvents) := by
  unfold inspectHardware at h
  split at h
  · simp at h
  · rename_i st hps
    split at h
    · simp at h
    · rename_i data hge
      split at h
      · rename_i props hdg
        split at h
        · simp at h
        · rename_i inspected hpick
          split at h
          · simp at h
          · rename_i node2 hcp
            split at h
            · rename_i portEvents hpp
              refine ⟨data, props, inspected, node2, portEvents, st,
                hps, hge, hdg, hpick, hcp, hpp, ?_⟩
              unfold inspectHardware
              simp only [hps, hge, hdg, hpick, hcp, hpp]
            · simp at h
      · simp at h
      · simp at h

theorem pickFold_get_isSome (props : List (Str × PyVal)) (keys : List Str) :
    ∀ (acc out : List (Str × PyVal)),
      (keys.foldlM (fun acc k =>
        match dictGet props k with
        | some v => pure (dictInsert acc k v)
        | none => throw (.pyError .keyError)) acc : Except IErr _) = .ok out →
      ∀ q ∈ keys, (dictGet out q).isSome = true := by
  induction keys with
  | nil =>
    intro acc out _ q hq
    simp at hq
  | cons k rest ih =>
    intro acc out h q hq
    simp only [List.foldlM_cons] at h
    cases hm : dictGet props k with
    | none =>
      rw [hm] at h
      have h' : (Except.error (.pyError .keyError) :
          Except IErr (List (Str × PyVal))) = .ok out := h
      exact Except.noConfusion h'
    | some v =>
      rw [hm] at h
      have h' : (rest.foldlM (fun acc k =>
          match dictGet props k with
          | some v => pure (dictInsert acc k v)
          | none => throw (.pyError .keyError)) (dictInsert acc k v) :
            Except IErr _) = .ok out := h
      rcases List.mem_cons.mp hq with rfl | hq'
      · by_cases hqr : q ∈ rest
        · exact ih _ out h' q hqr
        · rw [pickFold_get_not_mem props rest _ out h' q hqr]
          rw [dictGet_dictInsert, if_pos rfl]
          rfl
      · exact ih _ out h' q hq'

theorem pickEssential_get_isSome (props inspected : List (Str × PyVal))
    (h : pickEssential props = .ok inspected) (k : Str)
    (hk : k ∈ essentialPropertiesKeys) : (dictGet inspected k).isSome = true :=
  pickFold_get_isSome props essentialPropertiesKeys [] inspected h k hk

theorem capabilityPhase_preserves_props (env : Env) (node1 node2 : Node)
    (h : capabilityPhase env node1 = .ok node2) (k : Str)
    (hk : k ≠ "capabilities".data) :
    dictGet node2.properties k = dictGet node1.properties k := by
  unfold capabilityPhase at h
  split at h
  · split at h
    · split at h
      · exact absurd h (by simp)
      · split at h
        · exact absurd h (by simp)
        · split at h
          · injection h with h2
            rw [← h2]
          · injection h with h2
            rw [← h2]
            show dictGet (dictInsert node1.properties "capabilities".data _) k =
              dictGet node1.properties k
            rw [dictGet_dictInsert, if_neg (fun he => hk he.symm)]
    · injection h with h2
      rw [← h2]
  · injection h with h2
    rw [← h2]

/-- C1 (amended): the essential properties are merged into the node in
memory, but persisted only by the single `task.node.save()` AFTER the
capability phase: in every run, no save event precedes the capability
query; every successful run has the trace
`capabilityQuery :: save P :: portEvents` with no further saves and
with all four essential keys present in `P`; and when the capability
phase fails, the run ends in that error with no save at all, so a
capability-merge failure prevents the essential properties from ever
being persisted. -/
theorem C1_persistence_ordering (env : Env) (node : Node) :
    (((inspectHardware env node).2.takeWhile
        (fun e => !e.isCapabilityQuery)).all (fun e => !e.isSave) = true) ∧
    (∀ fs, (inspectHardware env node).1 = .ok fs →
      ∃ P portEvents, (inspectHardware env node).2 =
          Event.capabilityQuery :: Event.save P :: portEvents ∧
        portEvents.all (fun e => !e.isSave) = true ∧
        ∀ k ∈ essentialPropertiesKeys, (dictGet P k).isSome = true) ∧
    (∀ (data props inspected : List (Str × PyVal)) (e : IErr) (st : PowerState),
      env.powerState = .ok st →
      env.essentialProperties = .ok data →
      validate node data = .ok () →
      dictGet data "properties".data = some (.dict props) →
      pickEssential props = .ok inspected →
      capabilityPhase env
        { node with properties := dictUpdate node.properties inspected } =
          .error e →
      inspectHardware env node = (.error e, [Event.capabilityQuery])) := by
  refine ⟨?_, ?_, ?_⟩
  · rcases inspectHardware_trace_shape env node with h | ⟨rest, h⟩
    · rw [h]
      rfl
    · rw [h]
      rfl
  · intro fs h
    obtain ⟨data, props, inspected, node2, portEvents, st, hps, hge, hdg,
      hpick, hcp, hpp, heq⟩ := inspectHardware_ok_inv env node fs h
    refine ⟨node2.properties, portEvents, ?_, ?_, ?_⟩
    · rw [heq]
    · have hns := portPhase_no_save env node2 data
      rw [hpp] at hns
      exact hns
    · intro k hk
      have hkne : k ≠ "capabilities".data :=
        (by decide : ∀ k ∈ essentialPropertiesKeys, k ≠ "capabilities".data) k hk
      rw [capabilityPhase_preserves_props env _ node2 hcp k hkne]
      have hins : (dictGet inspected k).isSome = true :=
        pickEssential_get_isSome props inspected hpick k hk
      show (dictGet (dictUpdate node.properties inspected) k).isSome = true
      rw [dictGet_dictUpdate]
      cases hlg : lastGet inspected k with
      | some v => rfl
      | none =>
        exfalso
        have hnone : dictGet inspected k = none :=
          (dictGet_eq_none_iff inspected k).mpr
            ((lastGet_eq_none_iff inspected k).mp hlg)
        rw [hnone] at hins
        exact Bool.noConfusion hins
  · intro data props inspected e st hps henv hval hdg hpick hcp
    exact inspectHardware_capability_error env node data props inspected e st
      hps henv hval hdg hpick hcp

/-- C1 counterexample: a run in which the capability query is the
FIRST event of the trace and the only save comes after it (here the
capability query itself fails, so at the moment of the query nothing
was persisted) — the claim that the essential properties are persisted
strictly before the capability query is attempted is false. -/
theorem C1_counterexample :
    inspectHardware
      ⟨.ok .powerOn, .ok dataFull, .error "ribcl error".data, fun _ => .ok ()⟩
      ⟨"node-1".data, 1, [], [("inspect_ports".data, "1".data)]⟩ =
      (.ok .manageable,
       [Event.capabilityQuery, Event.save propsFull,
        Event.portCreated (.str "aa:aa:aa:aa:aa:aa".data) 1]) ∧
    (inspectHardware
      ⟨.ok .powerOn, .ok dataFull, .error "ribcl error".data, fun _ => .ok ()⟩
      ⟨"node-1".data, 1, [], [("inspect_ports".data, "1".data)]⟩).2.takeWhile
        (fun e => !e.isCapabilityQuery) = [] :=
  ⟨rfl, rfl⟩

/-- C1 witness: the amended ordering instantiated on a successful run:
the trace starts with the capability query, the single save follows
it, and the saved properties hold the four essential keys. -/
theorem C1_persistence_ordering_witness :
    ∃ P portEvents,
      (inspectHardware
        ⟨.ok .powerOn, .ok dataFull, .error "ribcl error".data, fun _ => .ok ()⟩
        ⟨"node-1".data, 1, [], [("inspect_ports".data, "1".data)]⟩).2 =
          Event.capabilityQuery :: Event.save P :: portEvents ∧
      portEvents.all (fun e => !e.isSave) = true ∧
      ∀ k ∈ essentialPropertiesKeys, (dictGet P k).isSome = true :=
  (C1_persistence_ordering
    ⟨.ok .powerOn, .ok dataFull, .error "ribcl error".data, fun _ => .ok ()⟩
    ⟨"node-1".data, 1, [], [("inspect_ports".data, "1".data)]⟩).2.1
    .manageable rfl

end IloInspect
